import Mathlib

/-!
Verification of the permessage-deflate extension of the soketto WebSocket
library (src/extension/deflate.rs, src/extension.rs), as a shallow embedding.

Payload bytes are modelled as `Nat` (the Rust code never performs arithmetic
on payload bytes).  The flate2 `Compress`/`Decompress` engines are external to
the repository; following the spec ("the underlying streaming deflate/inflate
codec primitive itself" is out of scope and is "assumed to be an external
library exposing: incremental compress/decompress into a growable output
buffer, returning one of {more-input-needed, buffer-full, stream-ended}, and
supporting context reset and configurable window size"), they are modelled by
a concrete invertible codec: compression buffers input internally and, on a
synchronization flush, emits each input byte b as the two bytes
[b % 128, b / 128 % 2] followed by the trailer 00 00 FF FF; decompression
inverts this.  The emitted body never contains the byte 0xFF, mirroring the
fact that a correct deflate stream does not end with the sync marker before a
sync flush.  `Vec` capacity is tracked explicitly; `reserve` is modelled with
Rust's amortized growth rule (new capacity = max(2 * cap, len + additional)
when the spare capacity is insufficient).
-/

namespace Soketto

/-- Payload bytes; the code moves them around but never computes with them. -/
abbrev Byte := Nat

/-- The fixed 4-byte block-end marker 00 00 FF FF (`TRAILER` in deflate.rs). -/
def TRAILER : List Byte := [0, 0, 255, 255]

/-- Connection mode (`connection::Mode`). -/
inductive Mode where
  | Client
  | Server
deriving DecidableEq, Repr

/-- WebSocket frame opcodes (`base::OpCode`); modelled from the spec: the
frame/header representation is an external collaborator ("one unit of the
WebSocket framing protocol, carrying an opcode, control bits (including fin
and three reserved bits), and a payload"). -/
inductive OpCode where
  | Continue
  | Text
  | Binary
  | Close
  | Ping
  | Pong
deriving DecidableEq, Repr

/-- Frame header; modelled from the spec: the Header type of base.rs is not
under src/, the spec describes it as carrying an opcode, the fin bit, three
reserved bits and a payload length. -/
structure Header where
  opcode : OpCode
  fin : Bool
  rsv1 : Bool
  rsv2 : Bool
  rsv3 : Bool
  payloadLen : Nat
deriving DecidableEq, Repr

/-- Extension negotiation parameter (`extension::Param`). -/
structure Param where
  name : String
  value : Option String
deriving DecidableEq, Repr

def SERVER_NO_CONTEXT_TAKEOVER : String := "server_no_context_takeover"
def SERVER_MAX_WINDOW_BITS : String := "server_max_window_bits"
def CLIENT_NO_CONTEXT_TAKEOVER : String := "client_no_context_takeover"
def CLIENT_MAX_WINDOW_BITS : String := "client_max_window_bits"

def DEFAULT_GROWTH : Nat := 4096
def DEFAULT_DECOMPRESS_SIZE : Nat := 256 * 1024 * 1024

/-- Rust `str::parse::<u8>`: an optional leading '+', then at least one
decimal digit, rejecting values above 255. -/
def parseU8 (s : String) : Option Nat :=
  let cs0 := s.data
  let cs := if cs0.head? = some '+' then cs0.tail else cs0
  if cs.isEmpty then none
  else if cs.all (fun c => c.isDigit) then
    let v := cs.foldl (fun n c => n * 10 + (c.toNat - '0'.toNat)) 0
    if v ≤ 255 then some v else none
  else none

/-- Rust `Vec::reserve(additional)`: no-op when the spare capacity suffices,
otherwise amortized growth to max(2 * cap, len + additional). -/
def reserveV (cap len additional : Nat) : Nat :=
  if additional ≤ cap - len then cap else max (2 * cap) (len + additional)

/-- Codec status (`flate2::Status`). -/
inductive Status where
  | Ok
  | BufError
  | StreamEnd
deriving DecidableEq, Repr

/-- Modelled from the spec: the body an ideal sync flush emits for buffered
input, two bytes per input byte, never containing the byte 0xFF. -/
def stuff (m : List Byte) : List Byte :=
  m.flatMap (fun b => [b % 128, b / 128 % 2])

/-- Modelled from the spec: inverse of `stuff` on well-formed bodies. -/
def unstuff : List Byte → List Byte
  | [] => []
  | [x] => [x]
  | x :: y :: r => (x + 128 * y) :: unstuff r

/-- Modelled from the spec: the full decompressed output for a compressed
input that ends with the 4-byte trailer (the receiver always appends it). -/
def inflateAll (input : List Byte) : List Byte :=
  unstuff (input.take (input.length - 4))

/-- Modelled from the spec: state of the streaming compression engine
(`flate2::Compress`): configured level and window, the cumulative
total-in counter the encode loop's input cursor relies on, input buffered
since the last flush, and flush output not yet written for lack of room. -/
structure Compress where
  level : Nat
  windowBits : Nat
  totalIn : Nat
  pending : List Byte
  pendingOut : List Byte
deriving DecidableEq, Repr

def Compress.new (level : Nat) : Compress :=
  { level := level, windowBits := 15, totalIn := 0, pending := [], pendingOut := [] }

def Compress.newWithWindowBits (level : Nat) (windowBits : Nat) : Compress :=
  { level := level, windowBits := windowBits, totalIn := 0, pending := [], pendingOut := [] }

/-- `Compress::reset`: drops stream state, keeps the configuration. -/
def Compress.reset (c : Compress) : Compress :=
  { c with totalIn := 0, pending := [], pendingOut := [] }

def Compress.setLevel (c : Compress) (level : Nat) : Compress :=
  { c with level := level }

/-- Modelled from the spec: `compress_vec(input, buf, FlushCompress::None)`
consumes all input into the engine (producing output only at a flush). -/
def Compress.compressNone (c : Compress) (input : List Byte) : Compress × Status :=
  ({ c with totalIn := c.totalIn + input.length, pending := c.pending ++ input }, .Ok)

/-- Modelled from the spec: `compress_vec(&[], buf, FlushCompress::Sync)`:
queue the flush output (stuffed pending input plus the trailer) if none is
queued, then write as much of it as the spare capacity allows, reporting
buffer-full when output remains. -/
def Compress.compressSync (c : Compress) (room : Nat) : Compress × List Byte × Status :=
  let c1 := if c.pendingOut.isEmpty then
      { c with pending := [], pendingOut := stuff c.pending ++ TRAILER }
    else c
  let out := c1.pendingOut.take room
  let c2 := { c1 with pendingOut := c1.pendingOut.drop room }
  (c2, out, if c2.pendingOut.isEmpty then .Ok else .BufError)

/-- Modelled from the spec: state of the streaming decompression engine
(`flate2::Decompress`): the configured window.  Output position is recovered
from the scratch buffer's length, which the decode loop clears first. -/
structure Decompress where
  windowBits : Nat
deriving DecidableEq, Repr

def Decompress.new : Decompress := { windowBits := 15 }

def Decompress.newWithWindowBits (windowBits : Nat) : Decompress :=
  { windowBits := windowBits }

/-- `Decompress::reset(zlib_header)`. -/
def Decompress.reset (d : Decompress) : Decompress := d

/-- The deflate extension state (`Deflate` in deflate.rs).  `bufferCap`
tracks the scratch `Vec`'s capacity, which `clear` keeps. -/
structure Deflate where
  mode : Mode
  enabled : Bool
  buffer : List Byte
  bufferCap : Nat
  params : List Param
  zlib_compression_level : Nat
  our_max_window_bits : Nat
  their_max_window_bits : Nat
  no_our_context_takeover : Bool
  no_their_context_takeover : Bool
  await_last_fragment : Bool
  max_buffer_size : Nat
  grow_buffer_size : Nat
  encoder : Compress
  decoder : Decompress
deriving DecidableEq, Repr

/-- `Deflate::new`. -/
def Deflate.new (mode : Mode) : Deflate where
  mode := mode
  enabled := false
  buffer := []
  bufferCap := 0
  params :=
    match mode with
    | .Server => []
    | .Client =>
        [ { name := SERVER_NO_CONTEXT_TAKEOVER, value := none },
          { name := CLIENT_NO_CONTEXT_TAKEOVER, value := none },
          { name := CLIENT_MAX_WINDOW_BITS, value := none } ]
  zlib_compression_level := 1
  our_max_window_bits := 15
  their_max_window_bits := 15
  no_our_context_takeover := false
  no_their_context_takeover := false
  await_last_fragment := false
  max_buffer_size := DEFAULT_DECOMPRESS_SIZE
  grow_buffer_size := DEFAULT_GROWTH
  encoder := Compress.new 1
  decoder := Decompress.new

/-- `Deflate::set_max_server_window_bits`; the Rust assertions (client mode,
9 ..= 15) are modelled by returning `none` when violated. -/
def Deflate.set_max_server_window_bits (d : Deflate) (m : Nat) : Option Deflate :=
  if d.mode = .Client ∧ 8 < m ∧ m ≤ 15 then
    some { d with their_max_window_bits := m,
                  params := d.params ++ [{ name := SERVER_MAX_WINDOW_BITS, value := some (toString m) }] }
  else none

/-- Replace the value of the first parameter with the given name
(`iter_mut().find(..)` followed by `set_value`), reporting whether one was found. -/
def replaceValueFirst : List Param → String → String → List Param × Bool
  | [], _, _ => ([], false)
  | p :: ps, n, v =>
    if p.name = n then ({ p with value := some v } :: ps, true)
    else
      let r := replaceValueFirst ps n v
      (p :: r.1, r.2)

/-- `Deflate::set_max_client_window_bits`; assertions modelled as `none`. -/
def Deflate.set_max_client_window_bits (d : Deflate) (m : Nat) : Option Deflate :=
  if d.mode = .Client ∧ 8 < m ∧ m ≤ 15 then
    let r := replaceValueFirst d.params CLIENT_MAX_WINDOW_BITS (toString m)
    some (if r.2 then { d with our_max_window_bits := m, params := r.1 }
          else { d with our_max_window_bits := m,
                        params := d.params ++ [{ name := CLIENT_MAX_WINDOW_BITS, value := some (toString m) }] })
  else none

/-- `Deflate::set_max_buffer_size`. -/
def Deflate.set_max_buffer_size (d : Deflate) (size : Nat) : Deflate :=
  { d with max_buffer_size := size }

/-- `Deflate::set_grow_buffer_size`. -/
def Deflate.set_grow_buffer_size (d : Deflate) (size : Nat) : Deflate :=
  { d with grow_buffer_size := size }

/-- `Deflate::set_compression_level`; the panic on levels above 9 is `none`. -/
def Deflate.set_compression_level (d : Deflate) (level : Nat) : Option Deflate :=
  if level ≤ 9 then
    some { d with zlib_compression_level := level, encoder := d.encoder.setLevel level }
  else none

/-- `Deflate::set_their_max_window_bits` (the private helper).  A present but
unparseable value falls through the `if let` and succeeds without any state
change; a parsed value outside 8 ..= 15 or above `expected` is an error;
otherwise `their_max_window_bits` is set to max(9, v). -/
def Deflate.set_their_max_window_bits (d : Deflate) (p : Param) (expected : Option Nat) :
    Except Unit Deflate :=
  match p.value with
  | some s =>
    match parseU8 s with
    | some v =>
      if v < 8 ∨ 15 < v then .error ()
      else
        match expected with
        | some x => if x < v then .error () else .ok { d with their_max_window_bits := max 9 v }
        | none => .ok { d with their_max_window_bits := max 9 v }
    | none => .ok d
  | none => .ok d

/-- Server arm of `Deflate::configure`: scan the inbound parameters in order;
the returned Bool is false when the loop abandoned negotiation early (each
such Rust path is `return Ok(())`). -/
def serverLoop : Deflate → List Param → Deflate × Bool
  | d, [] => (d, true)
  | d, p :: ps =>
    if p.name = CLIENT_MAX_WINDOW_BITS then
      match d.set_their_max_window_bits p none with
      | .error _ => (d, false)
      | .ok d' => serverLoop d' ps
    else if p.name = SERVER_MAX_WINDOW_BITS then
      match p.value with
      | some s =>
        match parseU8 s with
        | some v =>
          if v < 9 ∨ 15 < v then (d, false)
          else
            serverLoop
              { d with params := d.params ++ [{ name := SERVER_MAX_WINDOW_BITS, value := some (toString v) }],
                       our_max_window_bits := v } ps
        | none => (d, false)
      | none => (d, false)
    else if p.name = CLIENT_NO_CONTEXT_TAKEOVER then
      serverLoop
        { d with params := d.params ++ [{ name := CLIENT_NO_CONTEXT_TAKEOVER, value := none }],
                 no_their_context_takeover := true } ps
    else if p.name = SERVER_NO_CONTEXT_TAKEOVER then
      serverLoop
        { d with params := d.params ++ [{ name := SERVER_NO_CONTEXT_TAKEOVER, value := none }],
                 no_our_context_takeover := true } ps
    else (d, false)

/-- Client arm of `Deflate::configure`. -/
def clientLoop : Deflate → List Param → Deflate × Bool
  | d, [] => (d, true)
  | d, p :: ps =>
    if p.name = SERVER_NO_CONTEXT_TAKEOVER then
      clientLoop { d with no_their_context_takeover := true } ps
    else if p.name = CLIENT_NO_CONTEXT_TAKEOVER then
      clientLoop { d with no_our_context_takeover := true } ps
    else if p.name = SERVER_MAX_WINDOW_BITS then
      match d.set_their_max_window_bits p (some d.their_max_window_bits) with
      | .error _ => (d, false)
      | .ok d' => clientLoop d' ps
    else if p.name = CLIENT_MAX_WINDOW_BITS then
      match p.value with
      | some s =>
        match parseU8 s with
        | some v =>
          if v < 8 ∨ 15 < v then (d, false)
          else clientLoop { d with our_max_window_bits := min d.our_max_window_bits (max 9 v) } ps
        | none => clientLoop d ps
      | none => clientLoop d ps
    else (d, false)

/-- `Deflate::configure`.  Every Rust path returns `Ok(())`; the server arm
clears the outbound parameter list on entry; when the whole inbound list is
consumed, the extension enables itself and rebuilds both engines with the
negotiated window bits. -/
def Deflate.configure (d : Deflate) (ps : List Param) : Except String Unit × Deflate :=
  let r :=
    match d.mode with
    | .Server => serverLoop { d with params := [] } ps
    | .Client => clientLoop d ps
  if r.2 then
    (.ok (), { r.1 with enabled := true,
                        encoder := Compress.newWithWindowBits r.1.zlib_compression_level r.1.our_max_window_bits,
                        decoder := Decompress.newWithWindowBits r.1.their_max_window_bits })
  else (.ok (), r.1)

/-- The configured state, discarding the (always-ok) status. -/
def cfg (d : Deflate) (ps : List Param) : Deflate := (d.configure ps).2

/-- `Extension::reserved_bits` for Deflate. -/
def Deflate.reserved_bits (_ : Deflate) : Bool × Bool × Bool := (true, false, false)

/-- `buffer.ends_with(&TRAILER)`. -/
def endsWithTrailer (l : List Byte) : Bool := TRAILER.isSuffixOf l

/-- Outcome of a frame operation, mirroring Rust's `&mut` parameters: the
status together with the final extension state, header and payload.  The
payload of a frame is its byte list; `Storage` ownership is immaterial. -/
abbrev FrameResult := Except String Unit × Deflate × Header × List Byte

/-- The decompression loop of `Deflate::decode` (deflate.rs lines 308-321),
on the scratch buffer (cleared before entry) and its capacity.  `o` is the
full decompressed output the engine produces for the (re-fed) input; each
call appends the next bytes of `o` up to the spare capacity.  The error
carries the partial scratch buffer, a successful exit its final content.
The first argument is recursion fuel (the Rust loop diverges when the grow
increment is zero). -/
def decodeLoop (maxSize grow : Nat) (o : List Byte) :
    Nat → List Byte → Nat → Option (Except (String × List Byte × Nat) (List Byte × Nat))
  | 0, _, _ => none
  | fuel + 1, buf, cap =>
    if maxSize ≤ buf.length then some (.error ("decompressed message too large", buf, cap))
    else
      let cap' := reserveV cap buf.length grow
      let out := (o.drop buf.length).take (cap' - buf.length)
      let buf' := buf ++ out
      let status : Status := if buf'.length < o.length then .BufError else .Ok
      match status with
      | .Ok => some (.ok (buf', cap'))
      | .BufError => decodeLoop maxSize grow o fuel buf' cap'
      | .StreamEnd => some (.ok (buf', cap'))

/-- Tail of `Deflate::decode` (deflate.rs lines 298-329): when the reserved
bit is set, append the trailer, optionally reset the engine, run the
decompression loop and swap the scratch buffer into the frame; in any case
clear the reserved bit and update the payload length.  `none` is fuel
exhaustion of the loop (only possible with a zero grow increment). -/
def decodeTail (st : Deflate) (h : Header) (data : List Byte) : Option FrameResult :=
  if h.rsv1 then
    let data1 := data ++ TRAILER
    let dec := if st.no_their_context_takeover then st.decoder.reset else st.decoder
    let o := inflateAll data1
    match decodeLoop st.max_buffer_size st.grow_buffer_size o
        (st.max_buffer_size + data1.length + 8) [] st.bufferCap with
    | none => none
    | some (.error e) =>
        some (.error e.1, { st with decoder := dec, buffer := e.2.1, bufferCap := e.2.2 }, h, data1)
    | some (.ok r) =>
        some (.ok (),
          { st with decoder := dec, buffer := data1, bufferCap := data1.length },
          { h with rsv1 := false, payloadLen := r.1.length }, r.1)
  else
    some (.ok (), st, { h with rsv1 := false, payloadLen := data.length }, data)

/-- `Deflate::decode` (deflate.rs lines 274-330). -/
def Deflate.decode (st : Deflate) (h : Header) (data : List Byte) : Option FrameResult :=
  if data.isEmpty then some (.ok (), st, h, data)
  else if (h.opcode = .Binary ∨ h.opcode = .Text) ∧ h.rsv1 then
    if h.fin = false then some (.ok (), { st with await_last_fragment := true }, h, data)
    else decodeTail st h data
  else if h.opcode = .Continue ∧ h.fin ∧ st.await_last_fragment then
    decodeTail { st with await_last_fragment := false } h data
  else
    some (.ok (), st, h, data)

/-- The input-consuming compression loop of `Deflate::encode` (deflate.rs
lines 351-364): while the tracked cursor has not covered the input, refresh
it from the engine's total-in counter and feed the rest of the input with
`FlushCompress::None`.  `tVar` is the Rust local `total_in`. -/
def compressLoop (start : Nat) (data : List Byte) (grow : Nat) :
    Nat → Compress → Nat → List Byte → Nat → Option (Compress × List Byte × Nat)
  | 0, enc, tVar, buf, cap =>
    if tVar < data.length then none else some (enc, buf, cap)
  | fuel + 1, enc, tVar, buf, cap =>
    if tVar < data.length then
      let t := enc.totalIn - start
      let r := enc.compressNone (data.drop t)
      match r.2 with
      | .BufError => compressLoop start data grow fuel r.1 t buf (reserveV cap buf.length grow)
      | .Ok => compressLoop start data grow fuel r.1 t buf cap
      | .StreamEnd => some (r.1, buf, cap)
    else some (enc, buf, cap)

/-- The synchronization-flush loop of `Deflate::encode` (deflate.rs lines
367-374): until the buffer ends with the trailer, reserve 5 bytes and feed
an empty input with `FlushCompress::Sync`; both Ok and buffer-full continue
the loop. -/
def syncLoop : Nat → Compress → List Byte → Nat → Option (Compress × List Byte × Nat)
  | 0, enc, buf, cap =>
    if endsWithTrailer buf then some (enc, buf, cap) else none
  | fuel + 1, enc, buf, cap =>
    if endsWithTrailer buf then some (enc, buf, cap)
    else
      let cap' := reserveV cap buf.length 5
      let r := enc.compressSync (cap' - buf.length)
      let buf' := buf ++ r.2.1
      match r.2.2 with
      | .Ok => syncLoop fuel r.1 buf' cap'
      | .BufError => syncLoop fuel r.1 buf' cap'
      | .StreamEnd => some (r.1, buf', cap')

/-- Final phase of `Deflate::encode` (deflate.rs lines 377-390): fail unless
the buffer ends with the trailer, otherwise truncate the 4 trailer bytes,
swap the result into the frame's payload, set the reserved bit and update
the payload length. -/
def encodeFinish (st : Deflate) (h : Header) (data : List Byte)
    (enc : Compress) (buf : List Byte) (cap : Nat) : Option FrameResult :=
  if endsWithTrailer buf = false then
    some (.error "missing 00 00 FF FF", { st with encoder := enc, buffer := buf, bufferCap := cap }, h, data)
  else
    let out := buf.take (buf.length - 4)
    some (.ok (), { st with encoder := enc, buffer := data, bufferCap := data.length },
      { h with rsv1 := true, payloadLen := out.length }, out)

/-- `Deflate::encode` (deflate.rs lines 332-391). -/
def Deflate.encode (st : Deflate) (h : Header) (data : List Byte) : Option FrameResult :=
  if data.isEmpty then some (.ok (), st, h, data)
  else if h.opcode = .Binary ∨ h.opcode = .Text then
    let enc0 := if st.no_our_context_takeover then st.encoder.reset else st.encoder
    let cap0 := reserveV st.bufferCap 0 data.length
    let start := enc0.totalIn
    match compressLoop start data st.grow_buffer_size (data.length + 3) enc0 0 [] cap0 with
    | none => none
    | some c =>
      match syncLoop (2 * (c.1.pending.length + c.1.pendingOut.length) + 16) c.1 c.2.1 c.2.2 with
      | none => none
      | some s => encodeFinish st h data s.1 s.2.1 s.2.2
  else some (.ok (), st, h, data)

/-- A state with the `enabled` flag overwritten (used to express that the
frame operations never consult the flag). -/
def setEnabled (e : Bool) (st : Deflate) : Deflate := { st with enabled := e }

/-- Forgetting the final extension state of a frame operation. -/
def frameView (r : FrameResult) : Except String Unit × Header × List Byte :=
  (r.1, r.2.2.1, r.2.2.2)

/-- The window-bits invariant of the spec: both stored window-bit fields lie
within 9 ..= 15. -/
def wbInv (d : Deflate) : Prop :=
  9 ≤ d.our_max_window_bits ∧ d.our_max_window_bits ≤ 15 ∧
    9 ≤ d.their_max_window_bits ∧ d.their_max_window_bits ≤ 15

/-- The state change the server arm of `configure` performs for one accepted
parameter (the body of the accepting branches of `serverLoop`). -/
def serverStep (d : Deflate) (p : Param) : Deflate :=
  if p.name = CLIENT_MAX_WINDOW_BITS then
    match d.set_their_max_window_bits p none with
    | .error _ => d
    | .ok d' => d'
  else if p.name = SERVER_MAX_WINDOW_BITS then
    match p.value with
    | some s =>
      match parseU8 s with
      | some v =>
        if v < 9 ∨ 15 < v then d
        else { d with params := d.params ++ [{ name := SERVER_MAX_WINDOW_BITS, value := some (toString v) }],
                      our_max_window_bits := v }
      | none => d
    | none => d
  else if p.name = CLIENT_NO_CONTEXT_TAKEOVER then
    { d with params := d.params ++ [{ name := CLIENT_NO_CONTEXT_TAKEOVER, value := none }],
             no_their_context_takeover := true }
  else if p.name = SERVER_NO_CONTEXT_TAKEOVER then
    { d with params := d.params ++ [{ name := SERVER_NO_CONTEXT_TAKEOVER, value := none }],
             no_our_context_takeover := true }
  else d

/-- Whether the server arm of `configure` consumes this parameter and moves
on (true) or abandons negotiation at it (false); this does not depend on the
extension state. -/
def serverParamOk (p : Param) : Bool :=
  if p.name = CLIENT_MAX_WINDOW_BITS then
    match p.value with
    | some s =>
      match parseU8 s with
      | some v => decide (8 ≤ v ∧ v ≤ 15)
      | none => true
    | none => true
  else if p.name = SERVER_MAX_WINDOW_BITS then
    match p.value with
    | some s =>
      match parseU8 s with
      | some v => decide (9 ≤ v ∧ v ≤ 15)
      | none => false
    | none => false
  else if p.name = CLIENT_NO_CONTEXT_TAKEOVER then true
  else if p.name = SERVER_NO_CONTEXT_TAKEOVER then true
  else false

/-- The echo parameter the server arm pushes when it consumes a parameter
(none for `client_max_window_bits`, which is consumed without a reply). -/
def echoParam (p : Param) : Option Param :=
  if p.name = CLIENT_MAX_WINDOW_BITS then none
  else if p.name = SERVER_MAX_WINDOW_BITS then
    match p.value with
    | some s =>
      match parseU8 s with
      | some v =>
        if 9 ≤ v ∧ v ≤ 15 then some { name := SERVER_MAX_WINDOW_BITS, value := some (toString v) }
        else none
      | none => none
    | none => none
  else if p.name = CLIENT_NO_CONTEXT_TAKEOVER then
    some { name := CLIENT_NO_CONTEXT_TAKEOVER, value := none }
  else if p.name = SERVER_NO_CONTEXT_TAKEOVER then
    some { name := SERVER_NO_CONTEXT_TAKEOVER, value := none }
  else none

/-- A final Binary frame header with no reserved bits set. -/
def hdrBin (len : Nat) : Header :=
  { opcode := .Binary, fin := true, rsv1 := false, rsv2 := false, rsv3 := false, payloadLen := len }

/-- A final Binary frame header with the first reserved bit set. -/
def hdrBinC (len : Nat) : Header :=
  { opcode := .Binary, fin := true, rsv1 := true, rsv2 := false, rsv3 := false, payloadLen := len }

/-- A freshly negotiated client-side instance (empty response parameter list). -/
def clientFresh : Deflate := cfg (Deflate.new .Client) []

/-- A freshly negotiated server-side instance (empty request parameter list). -/
def serverFresh : Deflate := cfg (Deflate.new .Server) []

/-- `Extension::is_enabled` for Deflate. -/
def Deflate.is_enabled (d : Deflate) : Bool := d.enabled

/-- The fields of the extension state that negotiation never touches. -/
def sameCore (a b : Deflate) : Prop :=
  a.mode = b.mode ∧ a.enabled = b.enabled ∧ a.buffer = b.buffer ∧ a.bufferCap = b.bufferCap ∧
    a.await_last_fragment = b.await_last_fragment ∧ a.max_buffer_size = b.max_buffer_size ∧
    a.grow_buffer_size = b.grow_buffer_size ∧
    a.zlib_compression_level = b.zlib_compression_level ∧
    a.encoder = b.encoder ∧ a.decoder = b.decoder

/-- The state change the client arm of `configure` performs for one accepted
parameter. -/
def clientStep (d : Deflate) (p : Param) : Deflate :=
  if p.name = SERVER_NO_CONTEXT_TAKEOVER then { d with no_their_context_takeover := true }
  else if p.name = CLIENT_NO_CONTEXT_TAKEOVER then { d with no_our_context_takeover := true }
  else if p.name = SERVER_MAX_WINDOW_BITS then
    match d.set_their_max_window_bits p (some d.their_max_window_bits) with
    | .error _ => d
    | .ok d' => d'
  else if p.name = CLIENT_MAX_WINDOW_BITS then
    match p.value with
    | some s =>
      match parseU8 s with
      | some v =>
        if v < 8 ∨ 15 < v then d
        else { d with our_max_window_bits := min d.our_max_window_bits (max 9 v) }
      | none => d
    | none => d
  else d

/-- Whether the client arm of `configure` consumes this parameter (windows
are validated against the state, hence the extension-state argument). -/
def clientParamOk (d : Deflate) (p : Param) : Bool :=
  if p.name = SERVER_NO_CONTEXT_TAKEOVER then true
  else if p.name = CLIENT_NO_CONTEXT_TAKEOVER then true
  else if p.name = SERVER_MAX_WINDOW_BITS then
    match p.value with
    | some s =>
      match parseU8 s with
      | some v => decide (8 ≤ v ∧ v ≤ 15 ∧ v ≤ d.their_max_window_bits)
      | none => true
    | none => true
  else if p.name = CLIENT_MAX_WINDOW_BITS then
    match p.value with
    | some s =>
      match parseU8 s with
      | some v => decide (8 ≤ v ∧ v ≤ 15)
      | none => true
    | none => true
  else false

theorem stuff_nil : stuff [] = [] := rfl

theorem stuff_cons (b : Nat) (m : List Nat) :
    stuff (b :: m) = b % 128 :: b / 128 % 2 :: stuff m := rfl

theorem stuff_length (m : List Nat) : (stuff m).length = 2 * m.length := by
  induction m with
  | nil => rfl
  | cons b m ih =>
    rw [stuff_cons]
    simp only [List.length_cons, ih]
    omega

theorem unstuff_stuff (m : List Nat) (hm : ∀ b ∈ m, b ≤ 255) : unstuff (stuff m) = m := by
  induction m with
  | nil => rfl
  | cons b m ih =>
    have hb : b ≤ 255 := hm b (List.mem_cons_self b m)
    have hval : b % 128 + 128 * (b / 128 % 2) = b := by omega
    rw [stuff_cons]
    show (b % 128 + 128 * (b / 128 % 2)) :: unstuff (stuff m) = b :: m
    rw [hval, ih fun c hc => hm c (List.mem_cons_of_mem b hc)]

theorem stuff_lt (m : List Nat) : ∀ c : Nat, c ∈ stuff m → c < 255 := by
  induction m with
  | nil => simp [stuff_nil]
  | cons b m ih =>
    intro c hc
    rw [stuff_cons] at hc
    simp only [List.mem_cons] at hc
    rcases hc with h | h | h
    · omega
    · omega
    · exact ih c h

theorem inflateAll_stuff (m : List Nat) (hm : ∀ b ∈ m, b ≤ 255) :
    inflateAll (stuff m ++ TRAILER) = m := by
  have hlen : (stuff m ++ TRAILER).length - 4 = (stuff m).length := by
    simp [TRAILER]
  have htake : (stuff m ++ TRAILER).take ((stuff m ++ TRAILER).length - 4) = stuff m := by
    rw [hlen, List.take_left]
  rw [inflateAll, htake, unstuff_stuff m hm]

theorem endsWithTrailer_append (l : List Byte) : endsWithTrailer (l ++ TRAILER) = true := by
  simp [endsWithTrailer, List.isSuffixOf_iff_suffix]

theorem endsWithTrailer_nil : endsWithTrailer [] = false := by decide

theorem endsWithTrailer_count (l : List Byte) (h : endsWithTrailer l = true) :
    2 ≤ l.count 255 := by
  rw [endsWithTrailer, List.isSuffixOf_iff_suffix] at h
  obtain ⟨t, ht⟩ := h
  subst ht
  rw [List.count_append]
  have h2 : TRAILER.count 255 = 2 := by decide
  omega

theorem count_stuff (m : List Nat) : (stuff m).count 255 = 0 := by
  rw [List.count_eq_zero]
  intro h
  exact absurd rfl (Nat.ne_of_lt (stuff_lt m 255 h))

theorem take_stuff_trailer_not (m : List Nat) (n : Nat) (hn : n < 2 * m.length + 4) :
    endsWithTrailer ((stuff m ++ TRAILER).take n) = false := by
  by_contra hc
  have h2 : 2 ≤ ((stuff m ++ TRAILER).take n).count 255 :=
    endsWithTrailer_count _ (by revert hc; cases endsWithTrailer ((stuff m ++ TRAILER).take n) <;> simp)
  have hsplit : (stuff m ++ TRAILER).take n = stuff m ++ TRAILER.take (n - (stuff m).length) ∨
      (stuff m ++ TRAILER).take n = (stuff m).take n := by
    rcases le_or_lt (stuff m).length n with h | h
    · left
      rw [List.take_append_eq_append_take, List.take_of_length_le h]
    · right
      rw [List.take_append_of_le_length (Nat.le_of_lt h)]
  have hlen := stuff_length m
  rcases hsplit with h | h
  · rw [h, List.count_append, count_stuff] at h2
    have hj : n - (stuff m).length ≤ 3 := by omega
    have hcnt : ∀ j, j ≤ 3 → (TRAILER.take j).count 255 ≤ 1 := by decide
    have := hcnt _ hj
    omega
  · rw [h] at h2
    have hle : ((stuff m).take n).count 255 ≤ (stuff m).count 255 :=
      (List.take_sublist n (stuff m)).count_le 255
    rw [count_stuff m] at hle
    omega

theorem endsWithTrailer_eq_append (l : List Byte) (h : endsWithTrailer l = true) :
    l.take (l.length - 4) ++ TRAILER = l := by
  rw [endsWithTrailer, List.isSuffixOf_iff_suffix] at h
  obtain ⟨t, ht⟩ := h
  subst ht
  have h1 : (t ++ TRAILER).length - 4 = t.length := by simp [TRAILER]
  rw [h1, List.take_left]

theorem compressLoop_exit (start : Nat) (data : List Byte) (grow fuel : Nat) (enc : Compress)
    (tVar : Nat) (buf : List Byte) (cap : Nat) (h : ¬ tVar < data.length) :
    compressLoop start data grow fuel enc tVar buf cap = some (enc, buf, cap) := by
  cases fuel with
  | zero => rw [compressLoop, if_neg h]
  | succ f => rw [compressLoop, if_neg h]

theorem compressLoop_run (enc : Compress) (data : List Byte) (grow cap f : Nat) (hd : data ≠ []) :
    compressLoop enc.totalIn data grow (f + 2) enc 0 [] cap =
      some ({ enc with totalIn := enc.totalIn + data.length, pending := enc.pending ++ data }, [], cap) := by
  have h0 : 0 < data.length := List.length_pos.2 hd
  rw [show f + 2 = (f + 1) + 1 from rfl, compressLoop]
  rw [if_pos h0]
  simp only [Compress.compressNone, Nat.sub_self, List.drop_zero]
  rw [compressLoop]
  rw [if_pos h0]
  simp only [Compress.compressNone, Nat.add_sub_cancel_left, List.drop_length,
    List.length_nil, Nat.add_zero, List.append_nil]
  exact compressLoop_exit _ _ _ _ _ _ _ _ (lt_irrefl data.length)


theorem reserveV_le (cap len a : Nat) (h : len ≤ cap) : len + a ≤ reserveV cap len a := by
  rw [reserveV]
  split
  · omega
  · omega

theorem syncLoop_exit (fuel : Nat) (enc : Compress) (buf : List Byte) (cap : Nat)
    (h : endsWithTrailer buf = true) :
    syncLoop fuel enc buf cap = some (enc, buf, cap) := by
  cases fuel with
  | zero => rw [syncLoop, if_pos h]
  | succ f => rw [syncLoop, if_pos h]

theorem isEmpty_false_of_ne_nil {l : List Byte} (h : l ≠ []) : l.isEmpty = false := by
  cases l with
  | nil => exact absurd rfl h
  | cons a t => rfl

theorem syncLoop_step (f : Nat) (enc : Compress) (buf : List Byte) (cap : Nat)
    (hfalse : endsWithTrailer buf = false) (hne : enc.pendingOut ≠ []) :
    syncLoop (f + 1) enc buf cap =
      syncLoop f
        { enc with pendingOut := enc.pendingOut.drop (reserveV cap buf.length 5 - buf.length) }
        (buf ++ enc.pendingOut.take (reserveV cap buf.length 5 - buf.length))
        (reserveV cap buf.length 5) := by
  rw [syncLoop, if_neg (by simp [hfalse])]
  simp only [Compress.compressSync, isEmpty_false_of_ne_nil hne, Bool.false_eq_true, if_false]
  cases hb : (enc.pendingOut.drop (reserveV cap buf.length 5 - buf.length)).isEmpty <;>
    simp only [hb, if_true, if_false, Bool.false_eq_true]

theorem syncLoop_queue (f : Nat) (enc : Compress) (buf : List Byte) (cap : Nat)
    (hfalse : endsWithTrailer buf = false) (hempty : enc.pendingOut = []) :
    syncLoop (f + 1) enc buf cap =
      syncLoop f
        { enc with
            pending := []
            pendingOut := (stuff enc.pending ++ TRAILER).drop (reserveV cap buf.length 5 - buf.length) }
        (buf ++ (stuff enc.pending ++ TRAILER).take (reserveV cap buf.length 5 - buf.length))
        (reserveV cap buf.length 5) := by
  rw [syncLoop, if_neg (by simp [hfalse])]
  have hie : enc.pendingOut.isEmpty = true := by rw [hempty]; rfl
  simp only [Compress.compressSync, hie, if_true]
  cases hb : ((stuff enc.pending ++ TRAILER).drop (reserveV cap buf.length 5 - buf.length)).isEmpty <;>
    simp only [hb, if_true, if_false, Bool.false_eq_true]


theorem syncLoop_drain (P : List Byte) :
    ∀ fuel n cap (enc : Compress), enc.pending = [] →
      enc.pendingOut = (stuff P ++ TRAILER).drop n →
      n ≤ cap →
      (stuff P ++ TRAILER).length - n ≤ fuel →
      ∃ cap', syncLoop fuel enc ((stuff P ++ TRAILER).take n) cap =
        some ({ enc with pendingOut := [] }, stuff P ++ TRAILER, cap') := by
  intro fuel
  induction fuel with
  | zero =>
    intro n cap enc hp ho hnc hf
    have hn : (stuff P ++ TRAILER).length ≤ n := by omega
    rw [List.take_of_length_le hn, syncLoop_exit _ _ _ _ (endsWithTrailer_append _)]
    refine ⟨cap, ?_⟩
    have hd : enc.pendingOut = [] := by rw [ho, List.drop_eq_nil_of_le hn]
    congr 1
    cases enc with
    | mk a b c d e => simp_all
  | succ f ih =>
    intro n cap enc hp ho hnc hf
    by_cases hn : (stuff P ++ TRAILER).length ≤ n
    · rw [List.take_of_length_le hn, syncLoop_exit _ _ _ _ (endsWithTrailer_append _)]
      refine ⟨cap, ?_⟩
      have hd : enc.pendingOut = [] := by rw [ho, List.drop_eq_nil_of_le hn]
      congr 1
      cases enc with
      | mk a b c d e => simp_all
    · push_neg at hn
      have hQlen : (stuff P ++ TRAILER).length = 2 * P.length + 4 := by
        simp [TRAILER, stuff_length]
      have hfalse : endsWithTrailer ((stuff P ++ TRAILER).take n) = false :=
        take_stuff_trailer_not P n (by omega)
      have hne : enc.pendingOut ≠ [] := by
        rw [ho]
        intro hcon
        rw [List.drop_eq_nil_iff] at hcon
        omega
      have hlen : ((stuff P ++ TRAILER).take n).length = n := by
        rw [List.length_take]
        omega
      rw [syncLoop_step f enc _ cap hfalse hne, hlen, ho, List.drop_drop, ← List.take_add]
      have hcap' : n + 5 ≤ reserveV cap n 5 := reserveV_le cap n 5 hnc
      obtain ⟨cap2, hrec⟩ := ih (n + (reserveV cap n 5 - n)) (reserveV cap n 5)
        { enc with pendingOut := (stuff P ++ TRAILER).drop (n + (reserveV cap n 5 - n)) }
        (by simpa using hp) rfl (by omega) (by omega)
      exact ⟨cap2, hrec⟩

theorem syncLoop_fresh (enc : Compress) (cap fuel : Nat) (ho : enc.pendingOut = [])
    (hfuel : 2 * enc.pending.length + 5 ≤ fuel) :
    ∃ cap', syncLoop fuel enc [] cap =
      some ({ enc with pending := [], pendingOut := [] }, stuff enc.pending ++ TRAILER, cap') := by
  cases fuel with
  | zero => omega
  | succ f =>
    rw [syncLoop_queue f enc [] cap endsWithTrailer_nil ho]
    simp only [List.length_nil, List.nil_append]
    have hr : reserveV cap 0 5 - 0 = reserveV cap 0 5 := by omega
    obtain ⟨cap2, hrec⟩ := syncLoop_drain enc.pending f (reserveV cap 0 5 - 0) (reserveV cap 0 5)
      { enc with
          pending := []
          pendingOut := (stuff enc.pending ++ TRAILER).drop (reserveV cap 0 5 - 0) }
      rfl rfl (by omega)
      (by
        have : (stuff enc.pending ++ TRAILER).length = 2 * enc.pending.length + 4 := by
          simp [TRAILER, stuff_length]
        omega)
    exact ⟨cap2, hrec⟩

theorem decodeLoop_success (maxSize grow : Nat) (o : List Byte) (hg : 1 ≤ grow)
    (hm0 : 0 < maxSize) (hm : o.length ≤ maxSize) :
    ∀ fuel n cap, (n = 0 ∨ (n = cap ∧ n < o.length)) → n ≤ cap →
      o.length - n + 1 ≤ fuel →
      ∃ cap', decodeLoop maxSize grow o fuel (o.take n) cap = some (.ok (o, cap')) := by
  intro fuel
  induction fuel with
  | zero => intro n cap _ _ hf; omega
  | succ f ih =>
    intro n cap hinv hnc hf
    have hnS : n ≤ o.length := by rcases hinv with h | ⟨_, h⟩ <;> omega
    have hlen : (o.take n).length = n := by rw [List.length_take]; omega
    have htop : ¬ maxSize ≤ (o.take n).length := by rw [hlen]; rcases hinv with h | ⟨_, h⟩ <;> omega
    rw [decodeLoop, if_neg htop, hlen]
    dsimp only
    have hcap' : n + grow ≤ reserveV cap n grow := reserveV_le cap n grow hnc
    set cap' := reserveV cap n grow with hcapdef
    have hbuf : o.take n ++ (o.drop n).take (cap' - n) = o.take (n + (cap' - n)) :=
      (List.take_add o n (cap' - n)).symm
    rw [hbuf]
    by_cases hS : cap' < o.length
    · have hlen' : (o.take (n + (cap' - n))).length = n + (cap' - n) := by
        rw [List.length_take]; omega
      have heq : n + (cap' - n) = cap' := by omega
      rw [heq] at hlen' ⊢
      rw [hlen', if_pos hS]
      show ∃ c2, decodeLoop maxSize grow o f (o.take cap') cap' = some (.ok (o, c2))
      exact ih cap' cap' (Or.inr ⟨rfl, hS⟩) le_rfl (by omega)
    · push_neg at hS
      have heq : o.take (n + (cap' - n)) = o := List.take_of_length_le (by omega)
      rw [heq]
      have hnlt : ¬ o.length < o.length := lt_irrefl _
      simp only [if_neg hnlt]
      exact ⟨cap', rfl⟩

theorem decodeLoop_error_go (maxSize grow : Nat) (o : List Byte) (hg : 1 ≤ grow)
    (hbig : 2 * maxSize + grow < o.length) :
    ∀ fuel n, n < o.length → maxSize - n + 1 ≤ fuel →
      ∃ buf cap', decodeLoop maxSize grow o fuel (o.take n) n =
        some (.error ("decompressed message too large", buf, cap')) := by
  intro fuel
  induction fuel with
  | zero => intro n _ hf; omega
  | succ f ih =>
    intro n hnS hf
    have hlen : (o.take n).length = n := by rw [List.length_take]; omega
    by_cases htop : maxSize ≤ n
    · rw [decodeLoop, if_pos (by rw [hlen]; exact htop)]
      exact ⟨o.take n, n, rfl⟩
    · push_neg at htop
      rw [decodeLoop, if_neg (by rw [hlen]; omega), hlen]
      dsimp only
      have hcapLe : reserveV n n grow ≤ 2 * n + grow := by
        rw [reserveV]
        split
        · omega
        · omega
      have hcapGe : n + grow ≤ reserveV n n grow := reserveV_le n n grow le_rfl
      set cap' := reserveV n n grow with hcapdef
      have hbuf : o.take n ++ (o.drop n).take (cap' - n) = o.take (n + (cap' - n)) :=
        (List.take_add o n (cap' - n)).symm
      rw [hbuf]
      have hS : cap' < o.length := by omega
      have hlen' : (o.take (n + (cap' - n))).length = n + (cap' - n) := by
        rw [List.length_take]; omega
      have heq : n + (cap' - n) = cap' := by omega
      rw [heq] at hlen' ⊢
      rw [hlen', if_pos hS]
      show ∃ buf c2, decodeLoop maxSize grow o f (o.take cap') cap' =
        some (.error ("decompressed message too large", buf, c2))
      exact ih cap' (by omega) (by omega)

theorem decodeLoop_error (maxSize grow cap fuel : Nat) (o : List Byte) (hg : 1 ≤ grow)
    (hbig : maxSize = 0 ∨ (reserveV cap 0 grow < o.length ∧ 2 * maxSize + grow < o.length))
    (hfuel : maxSize + 2 ≤ fuel) :
    ∃ buf cap', decodeLoop maxSize grow o fuel [] cap =
      some (.error ("decompressed message too large", buf, cap')) := by
  obtain ⟨f, rfl⟩ : ∃ f, fuel = f + 1 := ⟨fuel - 1, by omega⟩
  by_cases h0 : maxSize = 0
  · rw [decodeLoop, if_pos (by simp [h0])]
    exact ⟨[], cap, rfl⟩
  · obtain ⟨hc1, hbig2⟩ : reserveV cap 0 grow < o.length ∧ 2 * maxSize + grow < o.length := by
      rcases hbig with h | h
      · exact absurd h h0
      · exact h
    rw [decodeLoop, if_neg (by simp only [List.length_nil]; omega)]
    dsimp only
    simp only [List.length_nil, List.drop_zero, List.nil_append, Nat.sub_zero]
    have hlen : (o.take (reserveV cap 0 grow)).length = reserveV cap 0 grow := by
      rw [List.length_take]; omega
    rw [if_pos (show (o.take (reserveV cap 0 grow)).length < o.length by omega)]
    show ∃ buf c2, decodeLoop maxSize grow o f (o.take (reserveV cap 0 grow)) (reserveV cap 0 grow) =
      some (.error ("decompressed message too large", buf, c2))
    exact decodeLoop_error_go maxSize grow o hg hbig2 f (reserveV cap 0 grow) hc1 (by omega)


theorem decodeLoop_ok (maxSize grow : Nat) (o : List Byte) :
    ∀ fuel n cap b c, n ≤ o.length →
      decodeLoop maxSize grow o fuel (o.take n) cap = some (.ok (b, c)) → b = o := by
  intro fuel
  induction fuel with
  | zero =>
    intro n cap b c _ h
    rw [decodeLoop] at h
    exact absurd h (by simp)
  | succ f ih =>
    intro n cap b c hn h
    rw [decodeLoop] at h
    have hlen : (o.take n).length = n := by rw [List.length_take]; omega
    by_cases htop : maxSize ≤ (o.take n).length
    · rw [if_pos htop] at h
      exact absurd h (by simp)
    · rw [if_neg htop] at h
      dsimp only at h
      rw [hlen, ← List.take_add] at h
      by_cases hlt : (o.take (n + (reserveV cap n grow - n))).length < o.length
      · rw [if_pos hlt] at h
        have hk : n + (reserveV cap n grow - n) ≤ o.length := by
          rw [List.length_take] at hlt
          omega
        exact ih (n + (reserveV cap n grow - n)) (reserveV cap n grow) b c hk h
      · rw [if_neg hlt] at h
        have h' : some (Except.ok (ε := String × List Byte × Nat)
            (o.take (n + (reserveV cap n grow - n)), reserveV cap n grow)) =
            some (.ok (b, c)) := h
        have hk : o.length ≤ n + (reserveV cap n grow - n) := by
          rw [List.length_take] at hlt
          omega
        have hb : b = o.take (n + (reserveV cap n grow - n)) := by
          injection h' with h''
          injection h'' with h3
          exact (congrArg Prod.fst h3).symm
        rw [hb, List.take_of_length_le hk]

theorem serverLoop_cons (d : Deflate) (p : Param) (ps : List Param) :
    serverLoop d (p :: ps) =
      if serverParamOk p then serverLoop (serverStep d p) ps else (d, false) := by
  rw [serverLoop, serverStep, serverParamOk, Deflate.set_their_max_window_bits]
  by_cases h1 : p.name = CLIENT_MAX_WINDOW_BITS
  · rw [if_pos h1, if_pos h1, if_pos h1]
    rcases hv : p.value with _ | s
    · simp [hv]
    · rcases hp : parseU8 s with _ | v
      · simp [hv, hp]
      · by_cases hr : v < 8 ∨ 15 < v
        · have hne : ¬ (8 ≤ v ∧ v ≤ 15) := by omega
          simp [hv, hp, hr, hne]
        · have hok : 8 ≤ v ∧ v ≤ 15 := by omega
          simp [hv, hp, hr, hok]
  · rw [if_neg h1, if_neg h1, if_neg h1]
    by_cases h2 : p.name = SERVER_MAX_WINDOW_BITS
    · rw [if_pos h2, if_pos h2, if_pos h2]
      rcases hv : p.value with _ | s
      · simp [hv]
      · rcases hp : parseU8 s with _ | v
        · simp [hv, hp]
        · by_cases hr : v < 9 ∨ 15 < v
          · have hne : ¬ (9 ≤ v ∧ v ≤ 15) := by omega
            simp [hv, hp, hne, hr]
          · have hok : 9 ≤ v ∧ v ≤ 15 := by omega
            simp [hv, hp, hok, hr]
    · rw [if_neg h2, if_neg h2, if_neg h2]
      by_cases h3 : p.name = CLIENT_NO_CONTEXT_TAKEOVER
      · rw [if_pos h3, if_pos h3, if_pos h3]
        simp
      · rw [if_neg h3, if_neg h3, if_neg h3]
        by_cases h4 : p.name = SERVER_NO_CONTEXT_TAKEOVER
        · rw [if_pos h4, if_pos h4, if_pos h4]
          simp
        · rw [if_neg h4, if_neg h4, if_neg h4]
          simp

theorem clientLoop_cons (d : Deflate) (p : Param) (ps : List Param) :
    clientLoop d (p :: ps) =
      if clientParamOk d p then clientLoop (clientStep d p) ps else (d, false) := by
  rw [clientLoop, clientStep, clientParamOk, Deflate.set_their_max_window_bits]
  by_cases h1 : p.name = SERVER_NO_CONTEXT_TAKEOVER
  · rw [if_pos h1, if_pos h1, if_pos h1]
    simp
  · rw [if_neg h1, if_neg h1, if_neg h1]
    by_cases h2 : p.name = CLIENT_NO_CONTEXT_TAKEOVER
    · rw [if_pos h2, if_pos h2, if_pos h2]
      simp
    · rw [if_neg h2, if_neg h2, if_neg h2]
      by_cases h3 : p.name = SERVER_MAX_WINDOW_BITS
      · rw [if_pos h3, if_pos h3, if_pos h3]
        rcases hv : p.value with _ | s
        · simp [hv]
        · rcases hp : parseU8 s with _ | v
          · simp [hv, hp]
          · by_cases hr : v < 8 ∨ 15 < v
            · have hne : ¬ (8 ≤ v ∧ v ≤ 15 ∧ v ≤ d.their_max_window_bits) := by omega
              simp [hv, hp, hr, hne]
            · by_cases he : d.their_max_window_bits < v
              · have hne : ¬ (8 ≤ v ∧ v ≤ 15 ∧ v ≤ d.their_max_window_bits) := by omega
                simp [hv, hp, hr, he, hne]
              · have hok : 8 ≤ v ∧ v ≤ 15 ∧ v ≤ d.their_max_window_bits := by omega
                simp [hv, hp, hr, he, hok]
      · rw [if_neg h3, if_neg h3, if_neg h3]
        by_cases h4 : p.name = CLIENT_MAX_WINDOW_BITS
        · rw [if_pos h4, if_pos h4, if_pos h4]
          rcases hv : p.value with _ | s
          · simp [hv]
          · rcases hp : parseU8 s with _ | v
            · simp [hv, hp]
            · by_cases hr : v < 8 ∨ 15 < v
              · have hne : ¬ (8 ≤ v ∧ v ≤ 15) := by omega
                simp [hv, hp, hne, hr]
              · have hok : 8 ≤ v ∧ v ≤ 15 := by omega
                simp [hv, hp, hok, hr]
        · rw [if_neg h4, if_neg h4, if_neg h4]
          simp


theorem sameCore_refl (a : Deflate) : sameCore a a := by
  simp [sameCore]

theorem sameCore_trans {a b c : Deflate} (h1 : sameCore a b) (h2 : sameCore b c) : sameCore a c := by
  obtain ⟨x1, x2, x3, x4, x5, x6, x7, x8, x9, x10⟩ := h1
  obtain ⟨y1, y2, y3, y4, y5, y6, y7, y8, y9, y10⟩ := h2
  exact ⟨x1.trans y1, x2.trans y2, x3.trans y3, x4.trans y4, x5.trans y5, x6.trans y6,
    x7.trans y7, x8.trans y8, x9.trans y9, x10.trans y10⟩

theorem set_their_shape (d : Deflate) (p : Param) (e : Option Nat) (d' : Deflate)
    (h : d.set_their_max_window_bits p e = .ok d') :
    d' = d ∨ ∃ v, d' = { d with their_max_window_bits := max 9 v } ∧ 8 ≤ v ∧ v ≤ 15 := by
  rw [Deflate.set_their_max_window_bits] at h
  obtain ⟨pn, pv⟩ := p
  dsimp only at h
  rcases pv with _ | s
  · injection h with h
    exact Or.inl h.symm
  · dsimp only at h
    rcases hp : parseU8 s with _ | v
    · rw [hp] at h
      injection h with h
      exact Or.inl h.symm
    · rw [hp] at h
      dsimp only at h
      by_cases hr : v < 8 ∨ 15 < v
      · rw [if_pos hr] at h
        exact absurd h (by simp)
      · rw [if_neg hr] at h
        rcases e with _ | x
        · injection h with h
          exact Or.inr ⟨v, h.symm, by omega, by omega⟩
        · dsimp only at h
          by_cases hx : x < v
          · rw [if_pos hx] at h
            exact absurd h (by simp)
          · rw [if_neg hx] at h
            injection h with h
            exact Or.inr ⟨v, h.symm, by omega, by omega⟩

theorem serverStep_core (d : Deflate) (p : Param) : sameCore (serverStep d p) d := by
  rw [serverStep]
  obtain ⟨pn, pv⟩ := p
  dsimp only
  by_cases h1 : pn = CLIENT_MAX_WINDOW_BITS
  · rw [if_pos h1]
    rcases hm : d.set_their_max_window_bits ⟨pn, pv⟩ none with d' | d'
    · exact sameCore_refl d
    · rcases set_their_shape d ⟨pn, pv⟩ none d' hm with h | ⟨v, h, _, _⟩
      · rw [h]
        exact sameCore_refl d
      · rw [h]
        simp [sameCore]
  · rw [if_neg h1]
    by_cases h2 : pn = SERVER_MAX_WINDOW_BITS
    · rw [if_pos h2]
      rcases pv with _ | s
      · exact sameCore_refl d
      · dsimp only
        rcases hp : parseU8 s with _ | v
        · exact sameCore_refl d
        · dsimp only
          by_cases hr : v < 9 ∨ 15 < v
          · rw [if_pos hr]
            exact sameCore_refl d
          · rw [if_neg hr]
            simp [sameCore]
    · rw [if_neg h2]
      by_cases h3 : pn = CLIENT_NO_CONTEXT_TAKEOVER
      · rw [if_pos h3]
        simp [sameCore]
      · rw [if_neg h3]
        by_cases h4 : pn = SERVER_NO_CONTEXT_TAKEOVER
        · rw [if_pos h4]
          simp [sameCore]
        · rw [if_neg h4]
          exact sameCore_refl d

theorem clientStep_core (d : Deflate) (p : Param) : sameCore (clientStep d p) d := by
  rw [clientStep]
  obtain ⟨pn, pv⟩ := p
  dsimp only
  by_cases h1 : pn = SERVER_NO_CONTEXT_TAKEOVER
  · rw [if_pos h1]
    simp [sameCore]
  · rw [if_neg h1]
    by_cases h2 : pn = CLIENT_NO_CONTEXT_TAKEOVER
    · rw [if_pos h2]
      simp [sameCore]
    · rw [if_neg h2]
      by_cases h3 : pn = SERVER_MAX_WINDOW_BITS
      · rw [if_pos h3]
        rcases hm : d.set_their_max_window_bits ⟨pn, pv⟩ (some d.their_max_window_bits) with d' | d'
        · exact sameCore_refl d
        · rcases set_their_shape d ⟨pn, pv⟩ _ d' hm with h | ⟨v, h, _, _⟩
          · rw [h]
            exact sameCore_refl d
          · rw [h]
            simp [sameCore]
      · rw [if_neg h3]
        by_cases h4 : pn = CLIENT_MAX_WINDOW_BITS
        · rw [if_pos h4]
          rcases pv with _ | s
          · exact sameCore_refl d
          · dsimp only
            rcases hp : parseU8 s with _ | v
            · exact sameCore_refl d
            · dsimp only
              by_cases hr : v < 8 ∨ 15 < v
              · rw [if_pos hr]
                exact sameCore_refl d
              · rw [if_neg hr]
                simp [sameCore]
        · rw [if_neg h4]
          exact sameCore_refl d

theorem serverLoop_core (ps : List Param) : ∀ d, sameCore (serverLoop d ps).1 d := by
  induction ps with
  | nil => intro d; rw [serverLoop]; exact sameCore_refl d
  | cons p ps ih =>
    intro d
    rw [serverLoop_cons]
    by_cases hok : serverParamOk p
    · rw [if_pos hok]
      exact sameCore_trans (ih (serverStep d p)) (serverStep_core d p)
    · rw [if_neg hok]
      exact sameCore_refl d

theorem clientLoop_core (ps : List Param) : ∀ d, sameCore (clientLoop d ps).1 d := by
  induction ps with
  | nil => intro d; rw [clientLoop]; exact sameCore_refl d
  | cons p ps ih =>
    intro d
    rw [clientLoop_cons]
    by_cases hok : clientParamOk d p
    · rw [if_pos hok]
      exact sameCore_trans (ih (clientStep d p)) (clientStep_core d p)
    · rw [if_neg hok]
      exact sameCore_refl d

theorem configure_fst (d : Deflate) (ps : List Param) : (d.configure ps).1 = .ok () := by
  rw [Deflate.configure]
  dsimp only
  split <;> rfl

theorem serverLoop_not_done (p : Param) (hbad : serverParamOk p = false) :
    ∀ ps, p ∈ ps → ∀ d, (serverLoop d ps).2 = false := by
  intro ps
  induction ps with
  | nil => intro hmem; exact absurd hmem (List.not_mem_nil p)
  | cons q ps ih =>
    intro hmem d
    rw [serverLoop_cons]
    by_cases hq : serverParamOk q
    · rw [if_pos hq]
      rcases List.mem_cons.1 hmem with h | h
      · subst h
        rw [hbad] at hq
        exact absurd hq (by simp)
      · exact ih h (serverStep d q)
    · rw [if_neg hq]

theorem clientLoop_not_done (p : Param) (hbad : ∀ d, clientParamOk d p = false) :
    ∀ ps, p ∈ ps → ∀ d, (clientLoop d ps).2 = false := by
  intro ps
  induction ps with
  | nil => intro hmem; exact absurd hmem (List.not_mem_nil p)
  | cons q ps ih =>
    intro hmem d
    rw [clientLoop_cons]
    by_cases hq : clientParamOk d q
    · rw [if_pos hq]
      rcases List.mem_cons.1 hmem with h | h
      · subst h
        rw [hbad d] at hq
        exact absurd hq (by simp)
      · exact ih h (clientStep d q)
    · rw [if_neg hq]

theorem configure_not_done_server (d : Deflate) (ps : List Param) (hmode : d.mode = .Server)
    (hnd : (serverLoop { d with params := [] } ps).2 = false) :
    (d.configure ps).2 = (serverLoop { d with params := [] } ps).1 := by
  rw [hmode] at hnd
  rw [Deflate.configure, hmode]
  dsimp only
  rw [if_neg (by rw [hnd]; simp)]

theorem configure_not_done_client (d : Deflate) (ps : List Param) (hmode : d.mode = .Client)
    (hnd : (clientLoop d ps).2 = false) :
    (d.configure ps).2 = (clientLoop d ps).1 := by
  rw [Deflate.configure, hmode]
  dsimp only
  rw [if_neg (by rw [hnd]; simp)]

theorem configure_done_server (d : Deflate) (ps : List Param) (hmode : d.mode = .Server)
    (hnd : (serverLoop { d with params := [] } ps).2 = true) :
    (d.configure ps).2 =
      { (serverLoop { d with params := [] } ps).1 with
          enabled := true
          encoder := Compress.newWithWindowBits
            (serverLoop { d with params := [] } ps).1.zlib_compression_level
            (serverLoop { d with params := [] } ps).1.our_max_window_bits
          decoder := Decompress.newWithWindowBits
            (serverLoop { d with params := [] } ps).1.their_max_window_bits } := by
  rw [hmode] at hnd
  rw [Deflate.configure, hmode]
  dsimp only
  rw [if_pos (by rw [hnd])]

theorem configure_done_client (d : Deflate) (ps : List Param) (hmode : d.mode = .Client)
    (hnd : (clientLoop d ps).2 = true) :
    (d.configure ps).2 =
      { (clientLoop d ps).1 with
          enabled := true
          encoder := Compress.newWithWindowBits
            (clientLoop d ps).1.zlib_compression_level
            (clientLoop d ps).1.our_max_window_bits
          decoder := Decompress.newWithWindowBits
            (clientLoop d ps).1.their_max_window_bits } := by
  rw [Deflate.configure, hmode]
  dsimp only
  rw [if_pos (by rw [hnd])]

theorem configure_enabled_unknown (d : Deflate) (ps : List Param) (p : Param) (hmem : p ∈ ps)
    (h1 : p.name ≠ SERVER_NO_CONTEXT_TAKEOVER) (h2 : p.name ≠ SERVER_MAX_WINDOW_BITS)
    (h3 : p.name ≠ CLIENT_NO_CONTEXT_TAKEOVER) (h4 : p.name ≠ CLIENT_MAX_WINDOW_BITS) :
    (d.configure ps).1 = .ok () ∧ (d.configure ps).2.enabled = d.enabled := by
  refine ⟨configure_fst d ps, ?_⟩
  have hsbad : serverParamOk p = false := by
    rw [serverParamOk, if_neg h4, if_neg h2, if_neg h3, if_neg h1]
  have hcbad : ∀ d', clientParamOk d' p = false := by
    intro d'
    rw [clientParamOk, if_neg h1, if_neg h3, if_neg h2, if_neg h4]
  cases hmode : d.mode with
  | Server =>
    have hnd := serverLoop_not_done p hsbad ps hmem { d with params := [] }
    rw [configure_not_done_server d ps hmode hnd]
    have hcore := serverLoop_core ps { d with params := [] }
    exact hcore.2.1
  | Client =>
    have hnd := clientLoop_not_done p hcbad ps hmem d
    rw [configure_not_done_client d ps hmode hnd]
    have hcore := clientLoop_core ps d
    exact hcore.2.1


theorem set_their_wb (d : Deflate) (p : Param) (e : Option Nat) (d' : Deflate)
    (h : d.set_their_max_window_bits p e = .ok d') (hw : wbInv d) : wbInv d' := by
  rcases set_their_shape d p e d' h with heq | ⟨v, heq, hv8, hv15⟩
  · rw [heq]; exact hw
  · rw [heq]
    obtain ⟨w1, w2, w3, w4⟩ := hw
    refine ⟨w1, w2, ?_, ?_⟩ <;> simp <;> omega

theorem serverStep_wb (d : Deflate) (p : Param) (hw : wbInv d) : wbInv (serverStep d p) := by
  rw [serverStep]
  obtain ⟨pn, pv⟩ := p
  dsimp only
  by_cases h1 : pn = CLIENT_MAX_WINDOW_BITS
  · rw [if_pos h1]
    rcases hm : d.set_their_max_window_bits ⟨pn, pv⟩ none with d' | d'
    · exact hw
    · exact set_their_wb d ⟨pn, pv⟩ none d' hm hw
  · rw [if_neg h1]
    by_cases h2 : pn = SERVER_MAX_WINDOW_BITS
    · rw [if_pos h2]
      rcases pv with _ | s
      · exact hw
      · dsimp only
        rcases hp : parseU8 s with _ | v
        · exact hw
        · dsimp only
          by_cases hr : v < 9 ∨ 15 < v
          · rw [if_pos hr]; exact hw
          · rw [if_neg hr]
            obtain ⟨w1, w2, w3, w4⟩ := hw
            refine ⟨?_, ?_, w3, w4⟩ <;> simp <;> omega
    · rw [if_neg h2]
      by_cases h3 : pn = CLIENT_NO_CONTEXT_TAKEOVER
      · rw [if_pos h3]; exact hw
      · rw [if_neg h3]
        by_cases h4 : pn = SERVER_NO_CONTEXT_TAKEOVER
        · rw [if_pos h4]; exact hw
        · rw [if_neg h4]; exact hw

theorem clientStep_wb (d : Deflate) (p : Param) (hw : wbInv d) : wbInv (clientStep d p) := by
  rw [clientStep]
  obtain ⟨pn, pv⟩ := p
  dsimp only
  by_cases h1 : pn = SERVER_NO_CONTEXT_TAKEOVER
  · rw [if_pos h1]; exact hw
  · rw [if_neg h1]
    by_cases h2 : pn = CLIENT_NO_CONTEXT_TAKEOVER
    · rw [if_pos h2]; exact hw
    · rw [if_neg h2]
      by_cases h3 : pn = SERVER_MAX_WINDOW_BITS
      · rw [if_pos h3]
        rcases hm : d.set_their_max_window_bits ⟨pn, pv⟩ (some d.their_max_window_bits) with d' | d'
        · exact hw
        · exact set_their_wb d ⟨pn, pv⟩ _ d' hm hw
      · rw [if_neg h3]
        by_cases h4 : pn = CLIENT_MAX_WINDOW_BITS
        · rw [if_pos h4]
          rcases pv with _ | s
          · exact hw
          · dsimp only
            rcases hp : parseU8 s with _ | v
            · exact hw
            · dsimp only
              by_cases hr : v < 8 ∨ 15 < v
              · rw [if_pos hr]; exact hw
              · rw [if_neg hr]
                obtain ⟨w1, w2, w3, w4⟩ := hw
                refine ⟨?_, ?_, w3, w4⟩ <;> simp <;> omega
        · rw [if_neg h4]; exact hw

theorem serverLoop_wb (ps : List Param) : ∀ d, wbInv d → wbInv (serverLoop d ps).1 := by
  induction ps with
  | nil => intro d hw; rw [serverLoop]; exact hw
  | cons p ps ih =>
    intro d hw
    rw [serverLoop_cons]
    by_cases hok : serverParamOk p
    · rw [if_pos hok]
      exact ih (serverStep d p) (serverStep_wb d p hw)
    · rw [if_neg hok]
      exact hw

theorem clientLoop_wb (ps : List Param) : ∀ d, wbInv d → wbInv (clientLoop d ps).1 := by
  induction ps with
  | nil => intro d hw; rw [clientLoop]; exact hw
  | cons p ps ih =>
    intro d hw
    rw [clientLoop_cons]
    by_cases hok : clientParamOk d p
    · rw [if_pos hok]
      exact ih (clientStep d p) (clientStep_wb d p hw)
    · rw [if_neg hok]
      exact hw

theorem configure_wb (d : Deflate) (ps : List Param) (hw : wbInv d) : wbInv (d.configure ps).2 := by
  cases hmode : d.mode with
  | Server =>
    have hw' : wbInv { d with params := ([] : List Param) } := hw
    have hl := serverLoop_wb ps { d with params := [] } hw'
    cases hdone : (serverLoop { d with params := [] } ps).2 with
    | true =>
      rw [configure_done_server d ps hmode hdone]
      exact hl
    | false =>
      rw [configure_not_done_server d ps hmode hdone]
      exact hl
  | Client =>
    have hl := clientLoop_wb ps d hw
    cases hdone : (clientLoop d ps).2 with
    | true =>
      rw [configure_done_client d ps hmode hdone]
      exact hl
    | false =>
      rw [configure_not_done_client d ps hmode hdone]
      exact hl

theorem serverLoop_consume (bad : Param) (rest : List Param) (hbad : serverParamOk bad = false) :
    ∀ pre d, (∀ p ∈ pre, serverParamOk p = true) →
      serverLoop d (pre ++ bad :: rest) = (pre.foldl serverStep d, false) := by
  intro pre
  induction pre with
  | nil =>
    intro d _
    rw [List.nil_append, serverLoop_cons, if_neg (by rw [hbad]; simp), List.foldl_nil]
  | cons p pre ih =>
    intro d hok
    rw [List.cons_append, serverLoop_cons,
      if_pos (by rw [hok p (List.mem_cons_self p pre)]), List.foldl_cons]
    exact ih (serverStep d p) fun q hq => hok q (List.mem_cons_of_mem p hq)

theorem serverStep_params (d : Deflate) (p : Param) :
    (serverStep d p).params = d.params ++ (echoParam p).toList := by
  rw [serverStep, echoParam]
  obtain ⟨pn, pv⟩ := p
  dsimp only
  by_cases h1 : pn = CLIENT_MAX_WINDOW_BITS
  · rw [if_pos h1, if_pos h1]
    rcases hm : d.set_their_max_window_bits ⟨pn, pv⟩ none with d' | d'
    · simp
    · rcases set_their_shape d ⟨pn, pv⟩ none d' hm with h | ⟨v, h, _, _⟩
      · rw [h]; simp
      · rw [h]; simp
  · rw [if_neg h1, if_neg h1]
    by_cases h2 : pn = SERVER_MAX_WINDOW_BITS
    · rw [if_pos h2, if_pos h2]
      rcases pv with _ | s
      · simp
      · dsimp only
        rcases hp : parseU8 s with _ | v
        · simp
        · dsimp only
          by_cases hr : v < 9 ∨ 15 < v
          · rw [if_pos hr, if_neg (by omega)]
            simp
          · rw [if_neg hr, if_pos (by omega)]
            simp
    · rw [if_neg h2, if_neg h2]
      by_cases h3 : pn = CLIENT_NO_CONTEXT_TAKEOVER
      · rw [if_pos h3, if_pos h3]
        simp
      · rw [if_neg h3, if_neg h3]
        by_cases h4 : pn = SERVER_NO_CONTEXT_TAKEOVER
        · rw [if_pos h4, if_pos h4]
          simp
        · rw [if_neg h4, if_neg h4]
          simp

theorem foldl_serverStep_params (pre : List Param) :
    ∀ d, (pre.foldl serverStep d).params = d.params ++ pre.filterMap echoParam := by
  induction pre with
  | nil => intro d; simp
  | cons p pre ih =>
    intro d
    rw [List.foldl_cons, ih (serverStep d p), serverStep_params, List.filterMap_cons]
    rcases he : echoParam p with _ | e
    · simp
    · simp

theorem foldl_serverStep_core (pre : List Param) :
    ∀ d, sameCore (pre.foldl serverStep d) d := by
  induction pre with
  | nil => intro d; exact sameCore_refl d
  | cons p pre ih =>
    intro d
    rw [List.foldl_cons]
    exact sameCore_trans (ih (serverStep d p)) (serverStep_core d p)

theorem cfg_enabled_fields (m : Mode) (ps : List Param)
    (h : (cfg (Deflate.new m) ps).enabled = true) :
    (cfg (Deflate.new m) ps).max_buffer_size = DEFAULT_DECOMPRESS_SIZE ∧
    (cfg (Deflate.new m) ps).grow_buffer_size = DEFAULT_GROWTH ∧
    (cfg (Deflate.new m) ps).bufferCap = 0 ∧
    (cfg (Deflate.new m) ps).buffer = [] ∧
    (cfg (Deflate.new m) ps).await_last_fragment = false ∧
    (cfg (Deflate.new m) ps).encoder =
      Compress.newWithWindowBits 1 (cfg (Deflate.new m) ps).our_max_window_bits ∧
    (cfg (Deflate.new m) ps).decoder =
      Decompress.newWithWindowBits (cfg (Deflate.new m) ps).their_max_window_bits := by
  rw [cfg] at *
  cases m with
  | Server =>
    cases hdone : (serverLoop { Deflate.new .Server with params := [] } ps).2 with
    | false =>
      rw [configure_not_done_server (Deflate.new .Server) ps rfl hdone] at h
      have hcore := serverLoop_core ps { Deflate.new .Server with params := [] }
      rw [hcore.2.1] at h
      exact absurd h (by simp [Deflate.new])
    | true =>
      rw [configure_done_server (Deflate.new .Server) ps rfl hdone] at *
      have hcore := serverLoop_core ps { Deflate.new .Server with params := [] }
      obtain ⟨c1, c2, c3, c4, c5, c6, c7, c8, c9, c10⟩ := hcore
      refine ⟨by simpa using c6, by simpa using c7, by simpa using c4, by simpa using c3,
        by simpa using c5, ?_, ?_⟩
      · simp only []
        rw [show (serverLoop { Deflate.new Mode.Server with params := [] } ps).1.zlib_compression_level = 1
          from by simpa using c8]
      · simp only []
  | Client =>
    cases hdone : (clientLoop (Deflate.new .Client) ps).2 with
    | false =>
      rw [configure_not_done_client (Deflate.new .Client) ps rfl hdone] at h
      have hcore := clientLoop_core ps (Deflate.new .Client)
      rw [hcore.2.1] at h
      exact absurd h (by simp [Deflate.new])
    | true =>
      rw [configure_done_client (Deflate.new .Client) ps rfl hdone] at *
      have hcore := clientLoop_core ps (Deflate.new .Client)
      obtain ⟨c1, c2, c3, c4, c5, c6, c7, c8, c9, c10⟩ := hcore
      refine ⟨by simpa using c6, by simpa using c7, by simpa using c4, by simpa using c3,
        by simpa using c5, ?_, ?_⟩
      · simp only []
        rw [show (clientLoop (Deflate.new Mode.Client) ps).1.zlib_compression_level = 1
          from by simpa using c8]
      · simp only []

theorem decodeTail_pass (st : Deflate) (h : Header) (d : List Byte) (hrsv : h.rsv1 = false) :
    decodeTail st h d = some (.ok (), st, { h with rsv1 := false, payloadLen := d.length }, d) := by
  rw [decodeTail, if_neg (by simp [hrsv])]

theorem decodeTail_success (st : Deflate) (h : Header) (d : List Byte)
    (hrsv : h.rsv1 = true) (hg : 1 ≤ st.grow_buffer_size) (hm0 : 0 < st.max_buffer_size)
    (hS : (inflateAll (d ++ TRAILER)).length ≤ st.max_buffer_size) :
    decodeTail st h d = some (.ok (),
      { st with
          decoder := if st.no_their_context_takeover then st.decoder.reset else st.decoder
          buffer := d ++ TRAILER
          bufferCap := (d ++ TRAILER).length },
      { h with rsv1 := false, payloadLen := (inflateAll (d ++ TRAILER)).length },
      inflateAll (d ++ TRAILER)) := by
  rw [decodeTail, if_pos (by simp [hrsv])]
  dsimp only
  obtain ⟨cap', hloop⟩ := decodeLoop_success st.max_buffer_size st.grow_buffer_size
    (inflateAll (d ++ TRAILER)) hg hm0 hS (st.max_buffer_size + (d ++ TRAILER).length + 8)
    0 st.bufferCap (Or.inl rfl) (Nat.zero_le _) (by omega)
  rw [List.take_zero] at hloop
  rw [hloop]

theorem decodeTail_error (st : Deflate) (h : Header) (d : List Byte)
    (hrsv : h.rsv1 = true) (hg : 1 ≤ st.grow_buffer_size)
    (hbig : st.max_buffer_size = 0 ∨
      (reserveV st.bufferCap 0 st.grow_buffer_size < (inflateAll (d ++ TRAILER)).length ∧
        2 * st.max_buffer_size + st.grow_buffer_size < (inflateAll (d ++ TRAILER)).length)) :
    ∃ st', decodeTail st h d =
      some (.error "decompressed message too large", st', h, d ++ TRAILER) := by
  rw [decodeTail, if_pos (by simp [hrsv])]
  dsimp only
  obtain ⟨buf, cap', hloop⟩ := decodeLoop_error st.max_buffer_size st.grow_buffer_size
    st.bufferCap (st.max_buffer_size + (d ++ TRAILER).length + 8)
    (inflateAll (d ++ TRAILER)) hg hbig (by omega)
  rw [hloop]
  exact ⟨_, rfl⟩

theorem decodeTail_ok_shape (st : Deflate) (h : Header) (d : List Byte)
    (r : Except String Unit) (s2 : Deflate) (h2 : Header) (d2 : List Byte)
    (hrsv : h.rsv1 = true)
    (hres : decodeTail st h d = some (r, s2, h2, d2)) (hok : r = .ok ()) :
    d2 = inflateAll (d ++ TRAILER) ∧
      h2 = { h with rsv1 := false, payloadLen := d2.length } := by
  rw [decodeTail, if_pos (by simp [hrsv])] at hres
  dsimp only at hres
  cases hl : decodeLoop st.max_buffer_size st.grow_buffer_size (inflateAll (d ++ TRAILER))
      (st.max_buffer_size + (d ++ TRAILER).length + 8) [] st.bufferCap with
  | none =>
    rw [hl] at hres
    exact absurd hres (by simp)
  | some e =>
    rw [hl] at hres
    cases e with
    | error ee =>
      dsimp only at hres
      simp only [Option.some.injEq, Prod.mk.injEq] at hres
      obtain ⟨h1, _, _, _⟩ := hres
      rw [hok] at h1
      exact absurd h1.symm (by simp)
    | ok rr =>
      dsimp only at hres
      have hb : rr.1 = inflateAll (d ++ TRAILER) := by
        have := decodeLoop_ok st.max_buffer_size st.grow_buffer_size (inflateAll (d ++ TRAILER))
          (st.max_buffer_size + (d ++ TRAILER).length + 8) 0 st.bufferCap rr.1 rr.2
          (Nat.zero_le _) (by rw [List.take_zero]; rw [hl])
        exact this
      simp only [Option.some.injEq, Prod.mk.injEq] at hres
      obtain ⟨h1, hst, hh, hd⟩ := hres
      constructor
      · rw [← hd, hb]
      · rw [← hh, ← hd, hb]


theorem decode_empty (st : Deflate) (h : Header) :
    st.decode h [] = some (.ok (), st, h, []) := by
  rw [Deflate.decode]
  simp

theorem decode_compressed (st : Deflate) (h : Header) (d : List Byte) (hne : d ≠ [])
    (hop : h.opcode = .Binary ∨ h.opcode = .Text) (hrsv : h.rsv1 = true) (hfin : h.fin = true) :
    st.decode h d = decodeTail st h d := by
  rw [Deflate.decode, if_neg (by simp [hne]), if_pos (by exact ⟨hop, hrsv⟩),
    if_neg (by rw [hfin]; simp)]

theorem decode_fragment (st : Deflate) (h : Header) (d : List Byte) (hne : d ≠ [])
    (hop : h.opcode = .Binary ∨ h.opcode = .Text) (hrsv : h.rsv1 = true) (hfin : h.fin = false) :
    st.decode h d = some (.ok (), { st with await_last_fragment := true }, h, d) := by
  rw [Deflate.decode, if_neg (by simp [hne]), if_pos (by exact ⟨hop, hrsv⟩), if_pos hfin]

theorem decode_continue (st : Deflate) (h : Header) (d : List Byte) (hne : d ≠ [])
    (hop : h.opcode = .Continue) (hfin : h.fin = true) (hawait : st.await_last_fragment = true) :
    st.decode h d = decodeTail { st with await_last_fragment := false } h d := by
  rw [Deflate.decode, if_neg (by simp [hne]),
    if_neg (by rw [hop]; simp), if_pos (by exact ⟨hop, by simp [hfin], by simp [hawait]⟩)]

theorem decode_pass (st : Deflate) (h : Header) (d : List Byte) (hne : d ≠ [])
    (hnot1 : ¬((h.opcode = .Binary ∨ h.opcode = .Text) ∧ h.rsv1 = true))
    (hnot2 : ¬(h.opcode = .Continue ∧ h.fin = true ∧ st.await_last_fragment = true)) :
    st.decode h d = some (.ok (), st, h, d) := by
  rw [Deflate.decode, if_neg (by simp [hne]), if_neg (by simpa using hnot1),
    if_neg (by simpa using hnot2)]

theorem encode_empty (st : Deflate) (h : Header) :
    st.encode h [] = some (.ok (), st, h, []) := by
  rw [Deflate.encode]
  simp

theorem encode_pass (st : Deflate) (h : Header) (d : List Byte) (hne : d ≠ [])
    (hop : ¬(h.opcode = .Binary ∨ h.opcode = .Text)) :
    st.encode h d = some (.ok (), st, h, d) := by
  rw [Deflate.encode, if_neg (by simp [hne]), if_neg hop]

theorem encode_run (st : Deflate) (h : Header) (d : List Byte) (hne : d ≠ [])
    (hop : h.opcode = .Binary ∨ h.opcode = .Text)
    (hpend : (if st.no_our_context_takeover then st.encoder.reset else st.encoder).pending = [])
    (hout : (if st.no_our_context_takeover then st.encoder.reset else st.encoder).pendingOut = []) :
    st.encode h d = some (.ok (),
      { st with
          encoder :=
            { (if st.no_our_context_takeover then st.encoder.reset else st.encoder) with
                totalIn := (if st.no_our_context_takeover then st.encoder.reset else st.encoder).totalIn + d.length
                pending := []
                pendingOut := [] }
          buffer := d
          bufferCap := d.length },
      { h with rsv1 := true, payloadLen := (stuff d).length }, stuff d) := by
  rw [Deflate.encode, if_neg (by simp [hne]), if_pos hop]
  dsimp only
  generalize hg0 : (if st.no_our_context_takeover = true then st.encoder.reset else st.encoder) = enc0 at hpend hout ⊢
  obtain ⟨lv, wb, ti, pe, po⟩ := enc0
  dsimp only at hpend hout
  subst hpend
  subst hout
  rw [show d.length + 3 = d.length + 1 + 2 by omega]
  have hc := compressLoop_run ⟨lv, wb, ti, [], []⟩ d st.grow_buffer_size
    (reserveV st.bufferCap 0 d.length) (d.length + 1) hne
  dsimp only at hc
  simp only [List.nil_append] at hc
  rw [hc]
  dsimp only
  simp only [List.length_nil, Nat.add_zero]
  obtain ⟨cap2, hsync⟩ := syncLoop_fresh ⟨lv, wb, ti + d.length, d, []⟩
    (reserveV st.bufferCap 0 d.length) (2 * d.length + 16) rfl (by dsimp only; omega)
  dsimp only at hsync
  rw [hsync]
  dsimp only
  rw [encodeFinish, if_neg (by rw [endsWithTrailer_append]; simp)]
  have hlen4 : (stuff d ++ TRAILER).length - 4 = (stuff d).length := by
    simp [TRAILER]
  rw [hlen4, List.take_left]

theorem decodeTail_setEnabled (e : Bool) (st : Deflate) (h : Header) (d : List Byte) :
    decodeTail (setEnabled e st) h d =
      (decodeTail st h d).map (fun r => (r.1, setEnabled e r.2.1, r.2.2)) := by
  obtain ⟨m1, e1, b1, c1, p1, z1, o1, t1, f1, f2, a1, x1, g1, ce, de⟩ := st
  rw [setEnabled]
  dsimp only
  rw [decodeTail, decodeTail]
  dsimp only
  by_cases hrsv : h.rsv1
  · rw [if_pos hrsv, if_pos hrsv]
    cases hl : decodeLoop x1 g1 (inflateAll (d ++ TRAILER)) (x1 + (d ++ TRAILER).length + 8) [] c1 with
    | none => rfl
    | some ee =>
      cases ee with
      | error a => rfl
      | ok a => rfl
  · rw [if_neg hrsv, if_neg hrsv]
    rfl

theorem decode_setEnabled (e : Bool) (st : Deflate) (h : Header) (d : List Byte) :
    Deflate.decode (setEnabled e st) h d =
      (Deflate.decode st h d).map (fun r => (r.1, setEnabled e r.2.1, r.2.2)) := by
  rw [Deflate.decode, Deflate.decode]
  by_cases hemp : d.isEmpty
  · rw [if_pos hemp, if_pos hemp]
    rfl
  · rw [if_neg hemp, if_neg hemp]
    by_cases h1 : (h.opcode = .Binary ∨ h.opcode = .Text) ∧ h.rsv1 = true
    · rw [if_pos h1, if_pos h1]
      by_cases hfin : h.fin = false
      · rw [if_pos hfin, if_pos hfin]
        rfl
      · rw [if_neg hfin, if_neg hfin]
        exact decodeTail_setEnabled e st h d
    · rw [if_neg h1, if_neg h1]
      have haw : (setEnabled e st).await_last_fragment = st.await_last_fragment := rfl
      by_cases h2 : h.opcode = .Continue ∧ h.fin = true ∧ st.await_last_fragment = true
      · rw [if_pos (by rw [haw]; exact h2), if_pos h2]
        have : setEnabled e { st with await_last_fragment := false } =
            { setEnabled e st with await_last_fragment := false } := rfl
        rw [← this]
        exact decodeTail_setEnabled e { st with await_last_fragment := false } h d
      · rw [if_neg (by rw [haw]; exact h2), if_neg h2]
        rfl

theorem encode_setEnabled (e : Bool) (st : Deflate) (h : Header) (d : List Byte) :
    Deflate.encode (setEnabled e st) h d =
      (Deflate.encode st h d).map (fun r => (r.1, setEnabled e r.2.1, r.2.2)) := by
  obtain ⟨m1, e1, b1, c1, p1, z1, o1, t1, f1, f2, a1, x1, g1, ce, de⟩ := st
  rw [setEnabled]
  dsimp only
  rw [Deflate.encode, Deflate.encode]
  by_cases hemp : d.isEmpty
  · rw [if_pos hemp, if_pos hemp]
    rfl
  · rw [if_neg hemp, if_neg hemp]
    by_cases hop : h.opcode = .Binary ∨ h.opcode = .Text
    · rw [if_pos hop, if_pos hop]
      dsimp only
      cases hc : compressLoop (if f1 = true then ce.reset else ce).totalIn d g1
          (d.length + 3) (if f1 = true then ce.reset else ce) 0 []
          (reserveV c1 0 d.length) with
      | none => rfl
      | some c =>
        dsimp only
        cases hs : syncLoop (2 * (c.1.pending.length + c.1.pendingOut.length) + 16) c.1 c.2.1 c.2.2 with
        | none => rfl
        | some sres =>
          dsimp only
          rw [encodeFinish.eq_def, encodeFinish.eq_def]
          dsimp only
          by_cases hew : endsWithTrailer sres.2.1 = false
          · rw [if_pos hew, if_pos hew]
            rfl
          · rw [if_neg hew, if_neg hew]
            rfl
    · rw [if_neg hop, if_neg hop]
      rfl

/-- Claim C9: for every Deflate instance and every frame whose payload is
empty, both encode and decode return success and leave the frame's header
and payload byte-for-byte unchanged. -/
theorem claim_C9_empty_noop (st : Deflate) (h : Header) :
    st.decode h [] = some (.ok (), st, h, []) ∧ st.encode h [] = some (.ok (), st, h, []) :=
  ⟨decode_empty st h, encode_empty st h⟩

/-- Claim C2 (amended): encode and decode never consult the `enabled` flag: a
disabled instance processes frames exactly as an enabled one, so with
`enabled = false` decode of a final compressed frame still decompresses and
clears the reserved bit, and encode still compresses and sets it; the frame
outcome and status are independent of the flag. -/
theorem claim_C2_enabled_independent (e : Bool) (st : Deflate) (h : Header) (d : List Byte) :
    Deflate.decode (setEnabled e st) h d =
      (Deflate.decode st h d).map (fun r => (r.1, setEnabled e r.2.1, r.2.2)) ∧
    Deflate.encode (setEnabled e st) h d =
      (Deflate.encode st h d).map (fun r => (r.1, setEnabled e r.2.1, r.2.2)) :=
  ⟨decode_setEnabled e st h d, encode_setEnabled e st h d⟩

/-- Claim C2 counterexample: a freshly constructed (disabled) client instance
does not pass a final compressed Binary frame through unchanged: decode
decompresses the payload and clears the reserved bit even though
`enabled = false`. -/
theorem claim_C2_counterexample :
    (Deflate.new .Client).enabled = false ∧
    (hdrBinC 4).rsv1 = true ∧
    ((Deflate.new .Client).decode (hdrBinC 4) (stuff [7, 8])).map
        (fun r => (r.1, r.2.2.1.rsv1, r.2.2.2)) = some (.ok (), false, [7, 8]) ∧
    stuff [7, 8] ≠ [7, 8] := by
  refine ⟨rfl, rfl, ?_, by decide⟩
  rfl


/-- Claim C4 (amended): configure never propagates an error for any input.
A present but unparseable window-bits value is handled asymmetrically: a
server receiving `server_max_window_bits` with an unparseable value declines
to enable the extension, while an unparseable `client_max_window_bits` (in
either mode) or an unparseable `server_max_window_bits` received by a client
is silently skipped and negotiation continues, possibly enabling. -/
theorem claim_C4_unparseable_value (st : Deflate) (ps : List Param) (p : Param)
    (rest : List Param) (s : String) :
    ((st.configure ps).1 = .ok ()) ∧
    (st.mode = .Server → p ∈ ps → p.name = SERVER_MAX_WINDOW_BITS → p.value = some s →
      parseU8 s = none → (st.configure ps).2.is_enabled = st.is_enabled) ∧
    (st.mode = .Server → p.name = CLIENT_MAX_WINDOW_BITS → p.value = some s →
      parseU8 s = none → st.configure (p :: rest) = st.configure rest) ∧
    (st.mode = .Client → (p.name = SERVER_MAX_WINDOW_BITS ∨ p.name = CLIENT_MAX_WINDOW_BITS) →
      p.value = some s → parseU8 s = none → st.configure (p :: rest) = st.configure rest) := by
  refine ⟨configure_fst st ps, ?_, ?_, ?_⟩
  · intro hmode hmem hname hval hparse
    have hbad : serverParamOk p = false := by
      rw [serverParamOk, if_neg (by rw [hname]; decide), if_pos hname, hval]
      dsimp only
      rw [hparse]
    have hnd := serverLoop_not_done p hbad ps hmem { st with params := [] }
    rw [Deflate.is_enabled, Deflate.is_enabled, configure_not_done_server st ps hmode hnd]
    exact (serverLoop_core ps { st with params := [] }).2.1
  · intro hmode hname hval hparse
    have hok : serverParamOk p = true := by
      rw [serverParamOk, if_pos hname, hval]
      dsimp only
      rw [hparse]
    have hid : serverStep { st with params := ([] : List Param) } p =
        { st with params := ([] : List Param) } := by
      rw [serverStep, if_pos hname, Deflate.set_their_max_window_bits, hval]
      dsimp only
      rw [hparse]
    rw [Deflate.configure, Deflate.configure, hmode]
    rw [hmode] at hid
    dsimp only
    rw [serverLoop_cons, if_pos hok, hid]
  · intro hmode hname hval hparse
    have hok : clientParamOk st p = true := by
      rcases hname with hname | hname
      · rw [clientParamOk, if_neg (by rw [hname]; decide), if_neg (by rw [hname]; decide),
          if_pos hname, hval]
        dsimp only
        rw [hparse]
      · rw [clientParamOk, if_neg (by rw [hname]; decide), if_neg (by rw [hname]; decide),
          if_neg (by rw [hname]; decide), if_pos hname, hval]
        dsimp only
        rw [hparse]
    have hid : clientStep st p = st := by
      rcases hname with hname | hname
      · rw [clientStep, if_neg (by rw [hname]; decide), if_neg (by rw [hname]; decide),
          if_pos hname, Deflate.set_their_max_window_bits, hval]
        dsimp only
        rw [hparse]
      · rw [clientStep, if_neg (by rw [hname]; decide), if_neg (by rw [hname]; decide),
          if_neg (by rw [hname]; decide), if_pos hname, hval]
        dsimp only
        rw [hparse]
    rw [Deflate.configure, Deflate.configure, hmode]
    dsimp only
    rw [clientLoop_cons, if_pos hok, hid]

/-- Claim C4 counterexample: a server receiving `client_max_window_bits` with
the unparseable value "abc" returns success and becomes enabled, so an
unparseable value does not always leave `is_enabled()` false. -/
theorem claim_C4_counterexample :
    ((Deflate.new .Server).configure
        [{ name := CLIENT_MAX_WINDOW_BITS, value := some "abc" }]).1 = .ok () ∧
    parseU8 "abc" = none ∧
    ((Deflate.new .Server).configure
        [{ name := CLIENT_MAX_WINDOW_BITS, value := some "abc" }]).2.is_enabled = true := by
  refine ⟨rfl, by decide, ?_⟩
  rfl

/-- Claim C4 witness. -/
theorem claim_C4_witness :
    ((Deflate.new .Server).configure
        [{ name := SERVER_MAX_WINDOW_BITS, value := some "xyz" }]).1 = .ok () ∧
    ((Deflate.new .Server).configure
        [{ name := SERVER_MAX_WINDOW_BITS, value := some "xyz" }]).2.is_enabled =
      (Deflate.new .Server).is_enabled := by
  have h := claim_C4_unparseable_value (Deflate.new .Server)
    [{ name := SERVER_MAX_WINDOW_BITS, value := some "xyz" }]
    { name := SERVER_MAX_WINDOW_BITS, value := some "xyz" } [] "xyz"
  exact ⟨h.1, h.2.1 rfl (by decide) rfl rfl (by decide)⟩

/-- Claim C6 (amended): configuring with a parameter list containing a
parameter whose name is not one of the four recognized tokens returns
success and never changes `is_enabled()`; in particular an instance that was
not already enabled stays disabled. -/
theorem claim_C6_unknown_param (d : Deflate) (ps : List Param) (p : Param) (hmem : p ∈ ps)
    (h1 : p.name ≠ SERVER_NO_CONTEXT_TAKEOVER) (h2 : p.name ≠ SERVER_MAX_WINDOW_BITS)
    (h3 : p.name ≠ CLIENT_NO_CONTEXT_TAKEOVER) (h4 : p.name ≠ CLIENT_MAX_WINDOW_BITS) :
    (d.configure ps).1 = .ok () ∧ (d.configure ps).2.is_enabled = d.is_enabled ∧
      (d.is_enabled = false → (d.configure ps).2.is_enabled = false) := by
  obtain ⟨hfst, hen⟩ := configure_enabled_unknown d ps p hmem h1 h2 h3 h4
  exact ⟨hfst, hen, fun hd => by rw [Deflate.is_enabled] at *; rw [hen, hd]⟩

/-- Claim C6 counterexample: an instance that already completed a successful
negotiation stays enabled when configured again with the unknown parameter
"foo", so `is_enabled()` is not always left false. -/
theorem claim_C6_counterexample :
    serverFresh.is_enabled = true ∧
    (serverFresh.configure [{ name := "foo", value := none }]).1 = .ok () ∧
    (serverFresh.configure [{ name := "foo", value := none }]).2.is_enabled = true := by
  exact ⟨rfl, rfl, rfl⟩

/-- Claim C6 witness. -/
theorem claim_C6_witness :
    ((Deflate.new .Client).configure [{ name := "foo", value := none }]).1 = .ok () ∧
    ((Deflate.new .Client).configure [{ name := "foo", value := none }]).2.is_enabled = false := by
  have h := claim_C6_unknown_param (Deflate.new .Client) [{ name := "foo", value := none }]
    { name := "foo", value := none } (by decide) (by decide) (by decide) (by decide) (by decide)
  exact ⟨h.1, h.2.2 rfl⟩

/-- Claim C5: window bits stay within 9 ..= 15 after construction, configure
and the two setters, and negotiating client_max_window_bits=5 is rejected
while =8 is accepted and stored as 9. -/
theorem claim_C5_window_bits_invariant :
    (∀ m, wbInv (Deflate.new m)) ∧
    (∀ (d : Deflate) (ps : List Param), wbInv d → wbInv (d.configure ps).2) ∧
    (∀ (d : Deflate) (m : Nat) (d' : Deflate), wbInv d →
      d.set_max_server_window_bits m = some d' → wbInv d') ∧
    (∀ (d : Deflate) (m : Nat) (d' : Deflate), wbInv d →
      d.set_max_client_window_bits m = some d' → wbInv d') ∧
    ((cfg (Deflate.new .Server) [{ name := CLIENT_MAX_WINDOW_BITS, value := some "5" }]).is_enabled = false ∧
      (cfg (Deflate.new .Server) [{ name := CLIENT_MAX_WINDOW_BITS, value := some "5" }]).their_max_window_bits = 15) ∧
    ((cfg (Deflate.new .Server) [{ name := CLIENT_MAX_WINDOW_BITS, value := some "8" }]).is_enabled = true ∧
      (cfg (Deflate.new .Server) [{ name := CLIENT_MAX_WINDOW_BITS, value := some "8" }]).their_max_window_bits = 9) ∧
    ((cfg (Deflate.new .Client) [{ name := CLIENT_MAX_WINDOW_BITS, value := some "5" }]).is_enabled = false ∧
      (cfg (Deflate.new .Client) [{ name := CLIENT_MAX_WINDOW_BITS, value := some "8" }]).our_max_window_bits = 9) := by
  refine ⟨?_, ?_, ?_, ?_, ⟨rfl, rfl⟩, ⟨rfl, rfl⟩, ⟨rfl, rfl⟩⟩
  · intro m
    cases m <;> exact ⟨by decide, by decide, by decide, by decide⟩
  · intro d ps hw
    exact configure_wb d ps hw
  · intro d m d' hw hset
    rw [Deflate.set_max_server_window_bits] at hset
    by_cases hc : d.mode = .Client ∧ 8 < m ∧ m ≤ 15
    · rw [if_pos hc] at hset
      injection hset with hset
      rw [← hset]
      obtain ⟨w1, w2, _, _⟩ := hw
      exact ⟨w1, w2, by simp; omega, by simp; omega⟩
    · rw [if_neg hc] at hset
      exact absurd hset (by simp)
  · intro d m d' hw hset
    rw [Deflate.set_max_client_window_bits] at hset
    by_cases hc : d.mode = .Client ∧ 8 < m ∧ m ≤ 15
    · rw [if_pos hc] at hset
      injection hset with hset
      obtain ⟨w1, w2, w3, w4⟩ := hw
      by_cases hf : (replaceValueFirst d.params CLIENT_MAX_WINDOW_BITS (toString m)).2
      · rw [if_pos hf] at hset
        rw [← hset]
        exact ⟨by simp; omega, by simp; omega, w3, w4⟩
      · rw [if_neg hf] at hset
        rw [← hset]
        exact ⟨by simp; omega, by simp; omega, w3, w4⟩
    · rw [if_neg hc] at hset
      exact absurd hset (by simp)

/-- Claim C5 witness. -/
theorem claim_C5_witness :
    wbInv (Deflate.new .Server) ∧ wbInv ((Deflate.new .Server).configure []).2 := by
  refine ⟨⟨by decide, by decide, by decide, by decide⟩, ?_⟩
  exact claim_C5_window_bits_invariant.2.1 (Deflate.new .Server) []
    ⟨by decide, by decide, by decide, by decide⟩

/-- Claim C10: when the server arm of configure abandons negotiation at a
parameter after consuming earlier ones, nothing is rolled back: the call
still returns success, the outbound parameter list was cleared on entry and
holds exactly the echoes of the consumed parameters, the flag and
window-bits effects of the consumed parameters persist, `is_enabled()` stays
false, and the encoder and decoder engines are not rebuilt. -/
theorem claim_C10_no_rollback (st : Deflate) (pre rest : List Param) (bad : Param)
    (hmode : st.mode = .Server) (hen : st.enabled = false)
    (hpre : ∀ p ∈ pre, serverParamOk p = true) (hbad : serverParamOk bad = false) :
    (st.configure (pre ++ bad :: rest)).1 = .ok () ∧
    (st.configure (pre ++ bad :: rest)).2 = pre.foldl serverStep { st with params := [] } ∧
    (pre.foldl serverStep { st with params := [] }).params = pre.filterMap echoParam ∧
    (pre.foldl serverStep { st with params := [] }).is_enabled = false ∧
    (pre.foldl serverStep { st with params := [] }).encoder = st.encoder ∧
    (pre.foldl serverStep { st with params := [] }).decoder = st.decoder := by
  have hloop := serverLoop_consume bad rest hbad pre { st with params := [] } hpre
  have hnd : (serverLoop { st with params := [] } (pre ++ bad :: rest)).2 = false := by
    rw [hloop]
  have hcore := foldl_serverStep_core pre { st with params := [] }
  refine ⟨configure_fst st _, ?_, ?_, ?_, ?_, ?_⟩
  · rw [configure_not_done_server st _ hmode hnd, hloop]
  · rw [foldl_serverStep_params pre { st with params := [] }]
    simp
  · rw [Deflate.is_enabled, hcore.2.1]
    exact hen
  · exact hcore.2.2.2.2.2.2.2.2.1
  · exact hcore.2.2.2.2.2.2.2.2.2

/-- Claim C10 witness. -/
theorem claim_C10_witness :
    ((Deflate.new .Server).configure
        ([{ name := CLIENT_NO_CONTEXT_TAKEOVER, value := none }] ++
          { name := "foo", value := none } :: [])).1 = .ok () ∧
    ((Deflate.new .Server).configure
        ([{ name := CLIENT_NO_CONTEXT_TAKEOVER, value := none }] ++
          { name := "foo", value := none } :: [])).2 =
      [{ name := CLIENT_NO_CONTEXT_TAKEOVER, value := none }].foldl serverStep
        { Deflate.new .Server with params := [] } := by
  have h := claim_C10_no_rollback (Deflate.new .Server)
    [{ name := CLIENT_NO_CONTEXT_TAKEOVER, value := none }] []
    { name := "foo", value := none } rfl rfl (by decide) (by decide)
  exact ⟨h.1, h.2.1⟩

/-- Claim C7 (amended): decode applies decompression exactly to final frames
that carry the first reserved bit and are Binary/Text, or Continuation
completing an awaited fragmented message; a final Continuation received
while awaiting the last fragment but without the reserved bit is passed
through with its payload unchanged (only the await flag is cleared and the
header's reserved bit and payload-length fields rewritten); every other
opcode/bit combination with a non-empty payload leaves payload and header
unchanged. -/
theorem claim_C7_decode_dispatch (st : Deflate) (h : Header) (d : List Byte) (hne : d ≠ []) :
    ((h.opcode = .Binary ∨ h.opcode = .Text) → h.rsv1 = true → h.fin = true →
      st.decode h d = decodeTail st h d) ∧
    ((h.opcode = .Binary ∨ h.opcode = .Text) → h.rsv1 = true → h.fin = false →
      st.decode h d = some (.ok (), { st with await_last_fragment := true }, h, d)) ∧
    (h.opcode = .Continue → h.fin = true → st.await_last_fragment = true →
      st.decode h d = decodeTail { st with await_last_fragment := false } h d) ∧
    (¬((h.opcode = .Binary ∨ h.opcode = .Text) ∧ h.rsv1 = true) →
      ¬(h.opcode = .Continue ∧ h.fin = true ∧ st.await_last_fragment = true) →
      st.decode h d = some (.ok (), st, h, d)) ∧
    (∀ st', h.rsv1 = false →
      decodeTail st' h d = some (.ok (), st', { h with rsv1 := false, payloadLen := d.length }, d)) ∧
    (∀ st' r s2 h2 d2, h.rsv1 = true → decodeTail st' h d = some (r, s2, h2, d2) → r = .ok () →
      d2 = inflateAll (d ++ TRAILER) ∧ h2 = { h with rsv1 := false, payloadLen := d2.length }) := by
  refine ⟨?_, ?_, ?_, ?_, ?_, ?_⟩
  · intro hop hrsv hfin
    exact decode_compressed st h d hne hop hrsv hfin
  · intro hop hrsv hfin
    exact decode_fragment st h d hne hop hrsv hfin
  · intro hop hfin hawait
    exact decode_continue st h d hne hop hfin hawait
  · intro hnot1 hnot2
    exact decode_pass st h d hne hnot1 hnot2
  · intro st' hrsv
    exact decodeTail_pass st' h d hrsv
  · intro st' r s2 h2 d2 hrsv hres hok
    exact decodeTail_ok_shape st' h d r s2 h2 d2 hrsv hres hok

/-- Claim C7 counterexample: after a non-final compressed Binary frame sets
the await flag, a final Continuation frame without the reserved bit is not
decompressed: its payload passes through unchanged, although decompressing
it would give a different byte sequence. -/
theorem claim_C7_counterexample :
    ((serverFresh.decode ⟨.Binary, false, true, false, false, 1⟩ [9]).bind
      (fun r => r.2.1.decode ⟨.Continue, true, false, false, false, 3⟩ [1, 2, 3])).map
        (fun q => (q.1, q.2.1.await_last_fragment, q.2.2.2)) =
      some (.ok (), false, [1, 2, 3]) ∧
    inflateAll ([1, 2, 3] ++ TRAILER) ≠ [1, 2, 3] := by
  exact ⟨rfl, by decide⟩

/-- Claim C7 witness. -/
theorem claim_C7_witness :
    ([5] : List Byte) ≠ [] ∧
    (serverFresh.decode ⟨.Close, true, false, false, false, 1⟩ [5] =
      some (.ok (), serverFresh, ⟨.Close, true, false, false, false, 1⟩, [5])) := by
  refine ⟨by decide, ?_⟩
  exact (claim_C7_decode_dispatch serverFresh _ [5] (by decide)).2.2.2.1
    (by decide) (by decide)

/-- Claim C8: on a non-empty Binary/Text frame, encode runs the compression
and synchronization-flush loops and finishes through `encodeFinish`; when
the resulting buffer ends with 00 00 FF FF, the payload installed is that
buffer with exactly its trailing 4 bytes removed, the first reserved bit is
set and the payload-length field equals the new payload's length; when the
buffer does not end with 00 00 FF FF, encode returns an error. -/
theorem claim_C8_encode_shape (st : Deflate) (h : Header) (d : List Byte)
    (enc : Compress) (buf : List Byte) (cap : Nat) (hne : d ≠ [])
    (hop : h.opcode = .Binary ∨ h.opcode = .Text) :
    (st.encode h d =
      (match compressLoop (if st.no_our_context_takeover then st.encoder.reset else st.encoder).totalIn
          d st.grow_buffer_size (d.length + 3)
          (if st.no_our_context_takeover then st.encoder.reset else st.encoder) 0 []
          (reserveV st.bufferCap 0 d.length) with
        | none => none
        | some c =>
          match syncLoop (2 * (c.1.pending.length + c.1.pendingOut.length) + 16) c.1 c.2.1 c.2.2 with
          | none => none
          | some s => encodeFinish st h d s.1 s.2.1 s.2.2)) ∧
    (endsWithTrailer buf = true →
      buf.take (buf.length - 4) ++ TRAILER = buf ∧
      encodeFinish st h d enc buf cap = some (.ok (),
        { st with encoder := enc, buffer := d, bufferCap := d.length },
        { h with rsv1 := true, payloadLen := (buf.take (buf.length - 4)).length },
        buf.take (buf.length - 4))) ∧
    (endsWithTrailer buf = false →
      encodeFinish st h d enc buf cap = some (.error "missing 00 00 FF FF",
        { st with encoder := enc, buffer := buf, bufferCap := cap }, h, d)) := by
  refine ⟨?_, ?_, ?_⟩
  · rw [Deflate.encode, if_neg (by simp [hne]), if_pos hop]
  · intro hew
    refine ⟨endsWithTrailer_eq_append buf hew, ?_⟩
    rw [encodeFinish, if_neg (by rw [hew]; simp)]
  · intro hew
    rw [encodeFinish, if_pos hew]

/-- Claim C8 witness. -/
theorem claim_C8_witness :
    ([3] : List Byte) ≠ [] ∧ endsWithTrailer ([1] ++ TRAILER) = true ∧
    ([1] ++ TRAILER : List Byte).take (([1] ++ TRAILER : List Byte).length - 4) ++ TRAILER =
      [1] ++ TRAILER ∧
    encodeFinish serverFresh (hdrBin 1) [3] (Compress.new 1) ([1] ++ TRAILER) 9 =
      some (.ok (),
        { serverFresh with encoder := Compress.new 1, buffer := [3], bufferCap := 1 },
        { hdrBin 1 with
            rsv1 := true
            payloadLen := (([1] ++ TRAILER : List Byte).take (([1] ++ TRAILER : List Byte).length - 4)).length },
        ([1] ++ TRAILER : List Byte).take (([1] ++ TRAILER : List Byte).length - 4)) := by
  have h := claim_C8_encode_shape serverFresh (hdrBin 1) [3] (Compress.new 1) ([1] ++ TRAILER) 9
    (by decide) (Or.inl rfl)
  have h2 := h.2.1 (by decide)
  exact ⟨by decide, by decide, h2.1, h2.2⟩

/-- Claim C3 (amended): decoding a final compressed Binary/Text frame on an
enabled instance returns the buffer-limit-exceeded error whenever the
decompressed size exceeds the scratch capacity the grow-and-check loop can
reach before the limit check fires: with configured maximum N, grow
increment g and scratch capacity c, an error is certain once the
decompressed size exceeds max(reserveV c 0 g, 2*N + g) (with N = 0 the
error is immediate); on that error the frame shows the original payload
with the 4-byte trailer appended and an unchanged header — no decompressed
output is observable through the frame.  The limit is only checked at
iteration boundaries, so output may exceed N without an error (see the
counterexample). -/
theorem claim_C3_buffer_limit (st : Deflate) (h : Header) (d : List Byte)
    (hen : st.enabled = true) (hop : h.opcode = .Binary ∨ h.opcode = .Text)
    (hrsv : h.rsv1 = true) (hfin : h.fin = true) (hne : d ≠ [])
    (hg : 1 ≤ st.grow_buffer_size)
    (hbig : st.max_buffer_size = 0 ∨
      (reserveV st.bufferCap 0 st.grow_buffer_size < (inflateAll (d ++ TRAILER)).length ∧
        2 * st.max_buffer_size + st.grow_buffer_size < (inflateAll (d ++ TRAILER)).length)) :
    ∃ st', st.decode h d =
      some (.error "decompressed message too large", st', h, d ++ TRAILER) := by
  rw [decode_compressed st h d hne hop hrsv hfin]
  exact decodeTail_error st h d hrsv hg hbig

/-- Claim C3 counterexample: with the decode buffer limit set to 16 bytes
and the default 4096-byte grow increment, a payload that decompresses to 17
bytes decodes successfully — the claimed buffer-limit-exceeded error does
not occur for every payload decompressing past the maximum. -/
theorem claim_C3_counterexample :
    (serverFresh.set_max_buffer_size 16).is_enabled = true ∧
    (serverFresh.set_max_buffer_size 16).max_buffer_size = 16 ∧
    16 < (List.range 17).length ∧
    ((serverFresh.set_max_buffer_size 16).decode (hdrBinC 34) (stuff (List.range 17))).map
        (fun r => (r.1, r.2.2.2)) = some (.ok (), List.range 17) := by
  refine ⟨rfl, rfl, by decide, ?_⟩
  rfl

/-- Claim C3 witness. -/
theorem claim_C3_witness :
    ((serverFresh.set_max_buffer_size 16).set_grow_buffer_size 4).enabled = true ∧
    (1 ≤ ((serverFresh.set_max_buffer_size 16).set_grow_buffer_size 4).grow_buffer_size) ∧
    (∃ st', ((serverFresh.set_max_buffer_size 16).set_grow_buffer_size 4).decode (hdrBinC 80)
        (stuff (List.range 40)) =
      some (.error "decompressed message too large", st', hdrBinC 80,
        stuff (List.range 40) ++ TRAILER)) := by
  refine ⟨rfl, by decide, ?_⟩
  exact claim_C3_buffer_limit ((serverFresh.set_max_buffer_size 16).set_grow_buffer_size 4)
    (hdrBinC 80) (stuff (List.range 40)) rfl (Or.inl rfl) rfl rfl (by decide) (by decide)
    (by right; constructor <;> decide)

end Soketto

namespace Soketto

/-- Claim C1 (amended): for every non-empty byte sequence M no longer than
the default 256 MiB decode buffer limit, encoding a Binary/Text final frame
carrying M through an enabled freshly negotiated client instance and
decoding through an enabled freshly negotiated server instance with
identical window-bits and context-takeover settings reproduces exactly M as
the frame's payload. -/
theorem claim_C1_roundtrip (ps ps' : List Param) (h : Header) (M : List Byte)
    (hcen : (cfg (Deflate.new .Client) ps).enabled = true)
    (hsen : (cfg (Deflate.new .Server) ps').enabled = true)
    (hop : h.opcode = .Binary ∨ h.opcode = .Text) (hfin : h.fin = true)
    (hne : M ≠ []) (hbytes : ∀ b ∈ M, b ≤ 255)
    (hwb : (cfg (Deflate.new .Client) ps).our_max_window_bits =
      (cfg (Deflate.new .Server) ps').their_max_window_bits)
    (hct : (cfg (Deflate.new .Client) ps).no_our_context_takeover =
      (cfg (Deflate.new .Server) ps').no_their_context_takeover)
    (hsize : M.length ≤ DEFAULT_DECOMPRESS_SIZE) :
    ∃ stc' h1 std' h2,
      (cfg (Deflate.new .Client) ps).encode h M = some (.ok (), stc', h1, stuff M) ∧
      h1 = { h with rsv1 := true, payloadLen := (stuff M).length } ∧
      (cfg (Deflate.new .Server) ps').decode h1 (stuff M) = some (.ok (), std', h2, M) := by
  obtain ⟨cm, cg, cc, cb, ca, cenc, cdec⟩ := cfg_enabled_fields .Client ps hcen
  obtain ⟨sm, sg, sc, sb, sa, senc, sdec⟩ := cfg_enabled_fields .Server ps' hsen
  have hpend : (if (cfg (Deflate.new .Client) ps).no_our_context_takeover then
      (cfg (Deflate.new .Client) ps).encoder.reset else
      (cfg (Deflate.new .Client) ps).encoder).pending = [] := by
    rw [cenc]
    by_cases hx : (cfg (Deflate.new .Client) ps).no_our_context_takeover <;>
      simp [hx, Compress.reset, Compress.newWithWindowBits]
  have hout : (if (cfg (Deflate.new .Client) ps).no_our_context_takeover then
      (cfg (Deflate.new .Client) ps).encoder.reset else
      (cfg (Deflate.new .Client) ps).encoder).pendingOut = [] := by
    rw [cenc]
    by_cases hx : (cfg (Deflate.new .Client) ps).no_our_context_takeover <;>
      simp [hx, Compress.reset, Compress.newWithWindowBits]
  have henc := encode_run (cfg (Deflate.new .Client) ps) h M hne hop hpend hout
  have hne2 : stuff M ≠ [] := by
    intro hc
    have hl := stuff_length M
    rw [hc] at hl
    simp only [List.length_nil] at hl
    exact hne (List.eq_nil_of_length_eq_zero (by omega))
  have hdec1 : (cfg (Deflate.new .Server) ps').decode
      { h with rsv1 := true, payloadLen := (stuff M).length } (stuff M) =
      decodeTail (cfg (Deflate.new .Server) ps')
        { h with rsv1 := true, payloadLen := (stuff M).length } (stuff M) :=
    decode_compressed _ _ _ hne2 hop rfl hfin
  have hdec2 := decodeTail_success (cfg (Deflate.new .Server) ps')
    { h with rsv1 := true, payloadLen := (stuff M).length } (stuff M) rfl
    (by rw [sg]; decide) (by rw [sm]; decide)
    (by rw [inflateAll_stuff M hbytes, sm]; exact hsize)
  rw [inflateAll_stuff M hbytes] at hdec2
  exact ⟨_, _, _, _, henc, rfl, by rw [hdec1, hdec2]⟩

end Soketto

namespace Soketto

/-- Claim C1 witness. -/
theorem claim_C1_witness :
    ([1] : List Byte) ≠ [] ∧ (cfg (Deflate.new .Client) []).enabled = true ∧
    (cfg (Deflate.new .Server) []).enabled = true ∧
    (∃ stc' h1 std' h2,
      (cfg (Deflate.new .Client) []).encode (hdrBin 1) [1] = some (.ok (), stc', h1, stuff [1]) ∧
      h1 = { hdrBin 1 with rsv1 := true, payloadLen := (stuff [1]).length } ∧
      (cfg (Deflate.new .Server) []).decode h1 (stuff [1]) = some (.ok (), std', h2, [1])) := by
  refine ⟨by decide, rfl, rfl, ?_⟩
  exact claim_C1_roundtrip [] [] (hdrBin 1) [1] rfl rfl (Or.inl rfl) rfl (by decide)
    (by decide) rfl rfl (by decide)

/-- Claim C1 counterexample: a message longer than the default 256 MiB
decode buffer limit does not round-trip through freshly negotiated
instances: encode succeeds but decode fails with the buffer-limit error, so
the original claim does not hold for every non-empty byte sequence. -/
theorem claim_C1_counterexample :
    List.replicate (2 * DEFAULT_DECOMPRESS_SIZE + DEFAULT_GROWTH + 1) (0 : Byte) ≠ [] ∧
    clientFresh.enabled = true ∧ serverFresh.enabled = true ∧
    ∃ stc' h1 std' h2 m,
      clientFresh.encode (hdrBin 1)
          (List.replicate (2 * DEFAULT_DECOMPRESS_SIZE + DEFAULT_GROWTH + 1) (0 : Byte)) =
        some (.ok (), stc', h1,
          stuff (List.replicate (2 * DEFAULT_DECOMPRESS_SIZE + DEFAULT_GROWTH + 1) (0 : Byte))) ∧
      serverFresh.decode h1
          (stuff (List.replicate (2 * DEFAULT_DECOMPRESS_SIZE + DEFAULT_GROWTH + 1) (0 : Byte))) =
        some (.error "decompressed message too large", std', h2, m) := by
  set M0 : List Byte := List.replicate (2 * DEFAULT_DECOMPRESS_SIZE + DEFAULT_GROWTH + 1) (0 : Byte) with hM0
  have hlen : M0.length = 2 * DEFAULT_DECOMPRESS_SIZE + DEFAULT_GROWTH + 1 := by
    rw [hM0]
    exact List.length_replicate _ _
  have hne : M0 ≠ [] := by
    intro hc
    rw [hc, List.length_nil] at hlen
    omega
  have hbytes : ∀ b ∈ M0, b ≤ 255 := by
    intro b hb
    rw [hM0] at hb
    rw [List.eq_of_mem_replicate hb]
    decide
  have hin : inflateAll (stuff M0 ++ TRAILER) = M0 := inflateAll_stuff M0 hbytes
  have hpend : (if clientFresh.no_our_context_takeover then clientFresh.encoder.reset
      else clientFresh.encoder).pending = [] := by decide
  have hout : (if clientFresh.no_our_context_takeover then clientFresh.encoder.reset
      else clientFresh.encoder).pendingOut = [] := by decide
  have henc := encode_run clientFresh (hdrBin 1) M0 hne (Or.inl rfl) hpend hout
  have hne2 : stuff M0 ≠ [] := by
    intro hc
    have hl := stuff_length M0
    rw [hc, hlen, List.length_nil] at hl
    omega
  have hdec1 := decode_compressed serverFresh
    { hdrBin 1 with
      rsv1 := true
      payloadLen := (stuff M0).length }
    (stuff M0) hne2 (Or.inl rfl) rfl rfl
  obtain ⟨st', herr⟩ := decodeTail_error serverFresh
    { hdrBin 1 with
      rsv1 := true
      payloadLen := (stuff M0).length }
    (stuff M0) rfl (by decide)
    (by
      right
      rw [hin, hlen]
      have e1 : reserveV serverFresh.bufferCap 0 serverFresh.grow_buffer_size = DEFAULT_GROWTH := rfl
      have e2 : serverFresh.max_buffer_size = DEFAULT_DECOMPRESS_SIZE := rfl
      have e3 : serverFresh.grow_buffer_size = DEFAULT_GROWTH := rfl
      rw [e1, e2, e3]
      omega)
  refine ⟨hne, rfl, rfl, ?_⟩
  exact ⟨_, _, _, _, _, henc, by rw [hdec1]; exact herr⟩

end Soketto
